import Mathlib

/-!
Verification of the shift-allowance services (client summary, client
comparison, dashboard graph, search, upload/correction) of the
`shift_allowance_final` repository.

The Python services are shallowly embedded: SQLAlchemy rows become Lean
structures, SQL joins become list comprehensions, Python dicts (which
preserve insertion order and have unique keys) become association lists
updated with a setdefault-style primitive, Python `float`/`Decimal`
arithmetic is embedded as exact rational arithmetic (`ℚ`), calendar dates
at day granularity are embedded at month granularity (every date stored by
the services is normalised to the first of its month; `last_day_of_month`
only ever moves within the same month), and `HTTPException(status, detail)`
becomes an `ApiError` value in an `Except`.
-/

namespace ShiftVerif

/-- A calendar month (`datetime.date` normalised to `day=1`). -/
structure Month where
  year : Nat
  month : Nat
deriving DecidableEq

/-- Linear index of a month, used for ordering and for month stepping. -/
def Month.idx (m : Month) : Nat := m.year * 12 + m.month

/-- The month with the given linear index (left inverse of `Month.idx`
on months whose `month` field lies in `1..12`). -/
def Month.ofIdx (n : Nat) : Month := ⟨(n - 1) / 12, (n - 1) % 12 + 1⟩

instance : LE Month := ⟨fun a b => a.idx ≤ b.idx⟩
instance : LT Month := ⟨fun a b => a.idx < b.idx⟩

instance (a b : Month) : Decidable (a ≤ b) := Nat.decLe a.idx b.idx

instance (a b : Month) : Decidable (a < b) := Nat.decLt a.idx b.idx

/-- The previous calendar month (`client_comparision_service.py` lines
232-235: `prev_y = y if m > 1 else y - 1; prev_m = m - 1 if m > 1 else 12`). -/
def Month.prevCal (m : Month) : Month :=
  if 1 < m.month then ⟨m.year, m.month - 1⟩ else ⟨m.year - 1, 12⟩

/-- Shift types as stored in `shift_mapping.shift_type` by the upload
service (`upload_service.py` lines 279-284 only ever inserts these four). -/
inductive ShiftType where
  | A
  | B
  | C
  | PRIME
deriving DecidableEq

/-- A `shift_allowances` row (the columns read by the reporting services). -/
structure SARow where
  id : Nat
  emp_id : String
  emp_name : String
  department : Option String
  client : Option String
  account_manager : Option String
  duration_month : Month
  payroll_month : Month
deriving DecidableEq

/-- A `shift_mapping` row. -/
structure SMRow where
  shiftallowance_id : Nat
  shift_type : ShiftType
  days : ℚ
deriving DecidableEq

/-- A `shifts_amount` row: rate per shift type and payroll year
(`payroll_year` is stored as the string `to_char(..., 'YYYY')`; embedded
as the year number). -/
structure RateRow where
  shift_type : ShiftType
  amount : ℚ
  payroll_year : Nat
deriving DecidableEq

/-- The row store the reporting services query. -/
structure DB where
  sas : List SARow
  sms : List SMRow
  rates : List RateRow
deriving DecidableEq

/-- `HTTPException(status_code, detail)`. -/
structure ApiError where
  status : Nat
  detail : String
deriving DecidableEq

instance {ε α : Type} [DecidableEq ε] [DecidableEq α] : DecidableEq (Except ε α) :=
  fun x y =>
    match x, y with
    | .error e, .error e' =>
      if h : e = e' then isTrue (by rw [h])
      else isFalse (fun hc => Except.noConfusion hc fun he => h he)
    | .ok a, .ok b =>
      if h : a = b then isTrue (by rw [h])
      else isFalse (fun hc => Except.noConfusion hc fun he => h he)
    | .error _, .ok _ => isFalse (fun hc => Except.noConfusion hc)
    | .ok _, .error _ => isFalse (fun hc => Except.noConfusion hc)

/-- ASCII lower-casing, as `str.lower()` acts on the ASCII names in scope
(structural so that concrete runs reduce). -/
def lowerChar (c : Char) : Char :=
  if 'A' ≤ c ∧ c ≤ 'Z' then Char.ofNat (c.toNat + 32) else c

def strLower (s : String) : String := ⟨s.data.map lowerChar⟩

/-- ASCII upper-casing (`str.upper()`). -/
def upperChar (c : Char) : Char :=
  if 'a' ≤ c ∧ c ≤ 'z' then Char.ofNat (c.toNat - 32) else c

def strUpper (s : String) : String := ⟨s.data.map upperChar⟩

/-- `str.strip()`: drop leading and trailing whitespace. -/
def strTrim (s : String) : String :=
  ⟨((s.data.dropWhile (·.isWhitespace)).reverse.dropWhile (·.isWhitespace)).reverse⟩

/-! ### Association lists

Python dicts preserve insertion order and have unique keys; they are
embedded as association lists.  `updA k d f l` is
`f( l.setdefault(k, d) )` written functionally: it rewrites the first
entry with key `k` through `f`, or appends `(k, f d)` when `k` is absent
(in a dict built only through `updA` keys are unique, so "first" is
"the" entry). -/

/-- First value stored under key `k`. -/
def findA {κ β : Type} [DecidableEq κ] (k : κ) : List (κ × β) → Option β
  | [] => none
  | (k', v) :: rest => if k' = k then some v else findA k rest

/-- `setdefault`-then-mutate on an association list. -/
def updA {κ β : Type} [DecidableEq κ] (k : κ) (d : β) (f : β → β) :
    List (κ × β) → List (κ × β)
  | [] => [(k, f d)]
  | (k', v) :: rest =>
    if k' = k then (k', f v) :: rest else (k', v) :: updA k d f rest

/-- Dict assignment `l[k] = v` (overwrite or append). -/
def setA {κ β : Type} [DecidableEq κ] (k : κ) (v : β) :
    List (κ × β) → List (κ × β)
  | [] => [(k, v)]
  | (k', v') :: rest =>
    if k' = k then (k', v) :: rest else (k', v') :: setA k v rest

/-- Rewrite the value at `k` when present; do nothing when absent. -/
def updExisting {κ β : Type} [DecidableEq κ] (k : κ) (f : β → β) :
    List (κ × β) → List (κ × β)
  | [] => []
  | (k', v) :: rest =>
    if k' = k then (k', f v) :: rest else (k', v) :: updExisting k f rest

/-- Sum of `g` over the values of an association list. -/
def sumBy {κ β M : Type} [AddCommMonoid M] (g : β → M) (l : List (κ × β)) : M :=
  (l.map fun p => g p.2).sum

theorem sumBy_nil {κ β M : Type} [AddCommMonoid M] (g : β → M) :
    sumBy g ([] : List (κ × β)) = 0 := rfl

theorem sumBy_cons {κ β M : Type} [AddCommMonoid M] (g : β → M)
    (p : κ × β) (l : List (κ × β)) :
    sumBy g (p :: l) = g p.2 + sumBy g l := by
  simp [sumBy]

/-- How `updA` changes a `sumBy`: by the increment of the entry it
touched (the first entry at `k`, or the default when `k` is absent). -/
theorem sumBy_updA {κ β M : Type} [DecidableEq κ] [AddCommMonoid M]
    (g : β → M) (inc : β → M) (k : κ) (d : β) (f : β → β)
    (hf : ∀ v, g (f v) = g v + inc v) (hd : g d = 0) :
    ∀ l : List (κ × β),
      sumBy g (updA k d f l) = sumBy g l + inc ((findA k l).getD d)
  | [] => by simp [updA, findA, sumBy, hf, hd]
  | (k', v) :: rest => by
    by_cases h : k' = k
    · simp only [updA, if_pos h, findA, sumBy_cons, hf v, Option.getD_some]
      rw [add_right_comm]
    · simp only [updA, findA, if_neg h, sumBy_cons,
        sumBy_updA g inc k d f hf hd rest, add_assoc]

/-- `updA` preserves a pointwise property of the values. -/
theorem forall_updA {κ β : Type} [DecidableEq κ] (P : β → Prop)
    (k : κ) (d : β) (f : β → β)
    (hf : ∀ v, P v → P (f v)) (hd : P (f d)) :
    ∀ l : List (κ × β), (∀ p ∈ l, P p.2) → ∀ p ∈ updA k d f l, P p.2
  | [], _ => by simpa [updA] using hd
  | (k', v) :: rest, hl => by
    have hv : P v := hl _ (List.mem_cons_self _ _)
    have hrest : ∀ q ∈ rest, P q.2 := fun q hq => hl _ (List.mem_cons_of_mem _ hq)
    by_cases h : k' = k
    · simp only [updA, if_pos h]
      intro p hp
      rcases List.mem_cons.mp hp with h1 | h1
      · subst h1; exact hf v hv
      · exact hrest _ h1
    · simp only [updA, if_neg h]
      intro p hp
      rcases List.mem_cons.mp hp with h1 | h1
      · subst h1; exact hv
      · exact forall_updA P k d f hf hd rest hrest p h1

/-- `updExisting` preserves a pointwise property of the values. -/
theorem forall_updExisting {κ β : Type} [DecidableEq κ] (P : β → Prop)
    (k : κ) (f : β → β) (hf : ∀ v, P v → P (f v)) :
    ∀ l : List (κ × β), (∀ p ∈ l, P p.2) → ∀ p ∈ updExisting k f l, P p.2
  | [], _ => by simp [updExisting]
  | (k', v) :: rest, hl => by
    have hv : P v := hl _ (List.mem_cons_self _ _)
    have hrest : ∀ q ∈ rest, P q.2 := fun q hq => hl _ (List.mem_cons_of_mem _ hq)
    by_cases h : k' = k
    · simp only [updExisting, if_pos h]
      intro p hp
      rcases List.mem_cons.mp hp with h1 | h1
      · subst h1; exact hf v hv
      · exact hrest _ h1
    · simp only [updExisting, if_neg h]
      intro p hp
      rcases List.mem_cons.mp hp with h1 | h1
      · subst h1; exact hv
      · exact forall_updExisting P k f hf rest hrest p h1

/-- `updExisting` does not change the key list. -/
theorem keys_updExisting {κ β : Type} [DecidableEq κ] (k : κ) (f : β → β) :
    ∀ l : List (κ × β), (updExisting k f l).map Prod.fst = l.map Prod.fst
  | [] => rfl
  | (k', v) :: rest => by
    by_cases h : k' = k
    · simp [updExisting, h]
    · simp [updExisting, h, keys_updExisting k f rest]

/-- `updExisting` at a different key leaves a lookup unchanged. -/
theorem findA_updExisting_ne {κ β : Type} [DecidableEq κ] (k k' : κ)
    (f : β → β) (hne : k ≠ k') :
    ∀ l : List (κ × β), findA k' (updExisting k f l) = findA k' l
  | [] => rfl
  | (k'', v) :: rest => by
    by_cases h : k'' = k
    · simp [updExisting, findA, h, hne]
    · by_cases h' : k'' = k'
      · have h2 : ¬ k' = k := fun e => hne e.symm
        simp [updExisting, findA, h, h', h2]
      · simp [updExisting, findA, h, h', findA_updExisting_ne k k' f hne rest]

/-! ### Client summary service (`client_summary_service.py`)

The response dict is keyed by `"YYYY-MM"` strings (or
`"YYYY-MM - YYYY-MM"` quarter labels); both renderings are injective, so
the keys are embedded structurally as `PKey`.  `parse_yyyy_mm` (string
format validation) happens before the logic embedded here; the
`start_month` / `end_month` payload fields are therefore carried as
already-parsed `Option Month`.  Python constructs
`date(year, m, 1)` for `selected_months`, which would throw for `m`
outside `1..12`; that crash path carries no data flow and is outside the
claims, so `Month.mk` is total here. -/

/-- Top-level period key of the summary response. -/
inductive PKey where
  | month (m : Month)
  | quarter (first last : Month)
deriving DecidableEq

/-- Zero-padded month rendering (`strftime("%Y-%m")`). -/
def pad2 (n : Nat) : String := if n < 10 then "0" ++ toString n else toString n

def monthStr (m : Month) : String := toString m.year ++ "-" ++ pad2 m.month

def pkeyStr : PKey → String
  | .month m => monthStr m
  | .quarter a b => monthStr a ++ " - " ++ monthStr b

def noDataMsg (k : PKey) : String := "No data found for " ++ pkeyStr k

/-- Employee leaf of the summary response. -/
structure EmpBlock where
  emp_id : String
  emp_name : String
  account_manager : Option String
  A : ℚ
  B : ℚ
  C : ℚ
  PRIME : ℚ
  total : ℚ
deriving DecidableEq

/-- Department node.  `no_data_error` is the optional `"error"` key the
gap reconciler writes into placeholder departments. -/
structure DeptBlock where
  dept_A : ℚ
  dept_B : ℚ
  dept_C : ℚ
  dept_PRIME : ℚ
  dept_total : ℚ
  employees : List EmpBlock
  dept_head_count : Nat
  no_data_error : Option String
deriving DecidableEq

structure ClientBlock where
  client_A : ℚ
  client_B : ℚ
  client_C : ℚ
  client_PRIME : ℚ
  departments : List (String × DeptBlock)
  client_head_count : Nat
  client_total : ℚ
deriving DecidableEq

structure MonthTotal where
  total_head_count : Nat
  A : ℚ
  B : ℚ
  C : ℚ
  PRIME : ℚ
  total_allowance : ℚ
deriving DecidableEq

/-- A period's value in the response: either the skeleton's
`{"message": "No data found for ..."}` placeholder or a populated block. -/
inductive PeriodBlock where
  | message (text : String)
  | data (clients : List (String × ClientBlock)) (month_total : MonthTotal)
deriving DecidableEq

abbrev SummaryResp := List (PKey × PeriodBlock)

/-- One tuple of the service's SQL query (lines 178-199): an inner join
of `shift_allowances`, `shift_mapping` and `shifts_amount`. -/
structure JoinedRow where
  duration_month : Month
  client : Option String
  department : Option String
  emp_id : String
  emp_name : String
  account_manager : Option String
  shift_type : ShiftType
  days : ℚ
  amount : ℚ
deriving DecidableEq

/-- The inner join: a tuple exists only when a `shifts_amount` row matches
the mapping's shift type and the payroll month's year (a missing rate
therefore drops the tuple, it does not contribute zero). -/
def summaryJoin (db : DB) : List JoinedRow :=
  db.sas.flatMap fun sa =>
    (db.sms.filter fun sm => decide (sm.shiftallowance_id = sa.id)).flatMap fun sm =>
      (db.rates.filter fun rt =>
          decide (rt.shift_type = sm.shift_type) &&
          decide (rt.payroll_year = sa.payroll_month.year)).map fun rt =>
        { duration_month := sa.duration_month
          client := sa.client
          department := sa.department
          emp_id := sa.emp_id
          emp_name := sa.emp_name
          account_manager := sa.account_manager
          shift_type := sm.shift_type
          days := sm.days
          amount := rt.amount }

/-- The `or_(filters)` WHERE clause built from `normalized_clients`
(lines 201-216): case-insensitive client match, and when the filter lists
departments, a case-insensitive department match (`lower(NULL)` is `NULL`
in SQL and matches nothing). -/
def clientDeptFilter (nc : List (String × List String)) (r : JoinedRow) : Bool :=
  nc.any fun e =>
    match r.client with
    | none => false
    | some c =>
      decide (strLower c = e.1) &&
        (e.2.isEmpty ||
          match r.department with
          | none => false
          | some d => e.2.contains (strLower d))

/-- The `clients` payload field: missing/falsy, the literal `"ALL"`, or an
explicit client → departments mapping. -/
inductive ClientsFilter where
  | absent
  | all
  | mapping (entries : List (String × List String))
deriving DecidableEq

structure SummaryPayload where
  selected_year : Option Int
  selected_months : List Nat
  selected_quarters : List String
  start_month : Option Month
  end_month : Option Month
  clients : ClientsFilter
deriving DecidableEq

/-- `validate_year` (lines 13-19). -/
def validate_year (today : Month) (year : Int) : Except ApiError Unit :=
  if year ≤ 0 then .error ⟨400, "selected_year must be greater than 0"⟩
  else if year > (today.year : Int) then
    .error ⟨400, "selected_year cannot be in the future"⟩
  else .ok ()

/-- `quarter_to_months` (lines 30-41). -/
def quarter_to_months (q : String) : Except ApiError (List Nat) :=
  let qn := strTrim (strUpper q)
  if qn = "Q1" then .ok [1, 2, 3]
  else if qn = "Q2" then .ok [4, 5, 6]
  else if qn = "Q3" then .ok [7, 8, 9]
  else if qn = "Q4" then .ok [10, 11, 12]
  else .error ⟨400, "Invalid quarter (expected Q1 to Q4)"⟩

/-- `month_range` (lines 44-56): the iterative month-stepping loop,
written as an index enumeration (the loop body advances `cur` by exactly
one month per step). -/
def month_range (s e : Month) : Except ApiError (List Month) :=
  if e.idx < s.idx then .error ⟨400, "start_month cannot be after end_month"⟩
  else .ok ((List.range (e.idx + 1 - s.idx)).map fun i => Month.ofIdx (s.idx + i))

/-- `func.max(ShiftAllowances.duration_month)` over the store. -/
def maxMonth? (ms : List Month) : Option Month :=
  ms.foldl (fun acc m =>
    match acc with
    | none => some m
    | some m0 => if m0 < m then some m else some m0) none

def dbMaxDuration (db : DB) : Option Month :=
  maxMonth? (db.sas.map (·.duration_month))

/-- The same maximum restricted to rows whose duration year is `y`
(lines 114-118). -/
def dbMaxDurationInYear (db : DB) (y : Nat) : Option Month :=
  maxMonth? ((db.sas.filter fun sa => decide (sa.duration_month.year = y)).map
    (·.duration_month))

/-- Python truthiness of the `clients` payload: `None`, `{}` and `"ALL"`
all take the first normalization branch (line 84). -/
def clientsFalsyOrAll : ClientsFilter → Bool
  | .absent => true
  | .all => true
  | .mapping l => l.isEmpty

def noPeriodFilters (p : SummaryPayload) : Bool :=
  p.selected_months.isEmpty && p.selected_quarters.isEmpty
    && p.start_month.isNone && p.end_month.isNone

/-- Output of period resolution: the month list, the quarter map (empty
unless quarter grouping), and the lower-cased client filter. -/
structure ResolvedPeriods where
  months : List Month
  quarter_map : List (PKey × List Month)
  normalized_clients : List (String × List String)
deriving DecidableEq

/-- `quarter_map` construction (lines 157-162): dict assignment per
quarter label. -/
def quarterEntries (y : Nat) (qs : List String) :
    Except ApiError (List (PKey × List Month)) :=
  qs.foldlM (fun acc q => do
    let ms ← quarter_to_months q
    let ml := ms.map fun mm => Month.mk y mm
    pure (setA (PKey.quarter (ml.headD ⟨y, 1⟩) (ml.getLastD ⟨y, 1⟩)) ml acc)) []

/-- Lines 131-165: the required-year check and the
range / selected-months / selected-quarters `elif` chain. -/
def resolveTail (today : Month) (p : SummaryPayload) (months0 : List Month)
    (sy : Option Int) (normalized : List (String × List String)) :
    Except ApiError ResolvedPeriods :=
  if ((!p.selected_months.isEmpty) || (!p.selected_quarters.isEmpty)) && sy.isNone then
    .error ⟨400, "selected_year is mandatory when using selected_months or selected_quarters"⟩
  else
    match p.start_month, p.end_month with
    | some s, some e => do
      let ms ← month_range s e
      pure ⟨ms, [], normalized⟩
    | _, _ =>
      if !p.selected_months.isEmpty then
        match sy with
        | none =>
          .error ⟨400, "selected_year is mandatory when using selected_months or selected_quarters"⟩
        | some y => do
          let _ ← validate_year today y
          pure ⟨p.selected_months.map (fun mm => Month.mk y.toNat mm), [], normalized⟩
      else if !p.selected_quarters.isEmpty then
        match sy with
        | none =>
          .error ⟨400, "selected_year is mandatory when using selected_months or selected_quarters"⟩
        | some y => do
          let _ ← validate_year today y
          let qmap ← quarterEntries y.toNat p.selected_quarters
          pure ⟨months0, qmap, normalized⟩
      else if months0.isEmpty then
        .error ⟨400, "No valid date filter provided"⟩
      else
        pure ⟨months0, [], normalized⟩

/-- Lines 81-129 followed by `resolveTail`: client normalization and the
latest-month defaults.  With a falsy/`"ALL"` clients payload and no period
filters the empty store falls back to the *current* calendar month; with
an explicit mapping and no filters the empty current year is a 404. -/
def resolveSummaryPeriods (today : Month) (db : DB) (p : SummaryPayload) :
    Except ApiError ResolvedPeriods :=
  if clientsFalsyOrAll p.clients then
    if noPeriodFilters p then
      let latest := (dbMaxDuration db).getD ⟨today.year, today.month⟩
      resolveTail today p [latest] (some (latest.year : Int)) []
    else
      resolveTail today p [] p.selected_year []
  else
    match p.clients with
    | .mapping entries =>
      let normalized := entries.map fun e => (strLower e.1, e.2.map strLower)
      if p.selected_year.isNone && noPeriodFilters p then
        match dbMaxDurationInYear db today.year with
        | none => .error ⟨404, "No data available for the current year"⟩
        | some latest => resolveTail today p [latest] (some (today.year : Int)) normalized
      else
        resolveTail today p [] p.selected_year normalized
    | _ => resolveTail today p [] p.selected_year []

/-- Response skeleton (lines 167-175): one `"No data found"` placeholder
per resolved period. -/
def skeletonOf : List PKey → SummaryResp → SummaryResp
  | [], acc => acc
  | k :: ks, acc => skeletonOf ks (setA k (.message (noDataMsg k)) acc)

def summarySkeleton (rp : ResolvedPeriods) (quarterMode : Bool) : SummaryResp :=
  if quarterMode then skeletonOf (rp.quarter_map.map (·.1)) []
  else skeletonOf (rp.months.map PKey.month) []

/-- The service's row fetch: the join, the client/department filter (only
when `normalized_clients` is non-empty), and the duration-month filter
(lines 201-227). -/
def summaryRows (db : DB) (rp : ResolvedPeriods) (quarterMode : Bool) : List JoinedRow :=
  let base := summaryJoin db
  let base :=
    if rp.normalized_clients.isEmpty then base
    else base.filter (clientDeptFilter rp.normalized_clients)
  let allMonths := if quarterMode then rp.quarter_map.flatMap (·.2) else rp.months
  base.filter fun r => decide (r.duration_month ∈ allMonths)

/-- Period key of one fetched row (lines 232-238): the quarter bucket
containing its duration month, or the month itself. -/
def summaryRowKey (quarterMode : Bool) (qmap : List (PKey × List Month))
    (dm : Month) : PKey :=
  if quarterMode then
    match qmap.find? (fun e => decide (dm ∈ e.2)) with
    | some e => e.1
    | none => PKey.month dm
  else PKey.month dm

def emptyMonthTotal : MonthTotal := ⟨0, 0, 0, 0, 0, 0⟩

def emptyClientBlock : ClientBlock := ⟨0, 0, 0, 0, [], 0, 0⟩

def emptyDeptBlock : DeptBlock := ⟨0, 0, 0, 0, 0, [], 0, none⟩

/-- A freshly appended employee dict (zeroed; the row's allowance is added
right after creation). -/
def newEmp (r : JoinedRow) : EmpBlock :=
  ⟨r.emp_id, r.emp_name, r.account_manager, 0, 0, 0, 0, 0⟩

def EmpBlock.shiftAdd (e : EmpBlock) (st : ShiftType) (t : ℚ) : EmpBlock :=
  match st with
  | .A => { e with A := e.A + t }
  | .B => { e with B := e.B + t }
  | .C => { e with C := e.C + t }
  | .PRIME => { e with PRIME := e.PRIME + t }

/-- `emp[stype] += total; emp["total"] += total` (lines 284-285). -/
def addToEmp (e : EmpBlock) (st : ShiftType) (t : ℚ) : EmpBlock :=
  { e.shiftAdd st t with total := e.total + t }

/-- `next((e for e in employees if e["emp_id"] == emp_id), None)` and the
create-if-missing branch (lines 270-279). -/
def updEmployees (r : JoinedRow) (t : ℚ) : List EmpBlock → List EmpBlock
  | [] => [addToEmp (newEmp r) r.shift_type t]
  | e :: rest =>
    if e.emp_id = r.emp_id then addToEmp e r.shift_type t :: rest
    else e :: updEmployees r t rest

def deptHasEmp (d : DeptBlock) (id : String) : Bool :=
  d.employees.any fun e => decide (e.emp_id = id)

def clientHasEmp (c : ClientBlock) (dk id : String) : Bool :=
  match findA dk c.departments with
  | none => false
  | some d => deptHasEmp d id

def clientsHaveEmp (cs : List (String × ClientBlock)) (ck dk id : String) : Bool :=
  match findA ck cs with
  | none => false
  | some c => clientHasEmp c dk id

def DeptBlock.shiftAdd (d : DeptBlock) (st : ShiftType) (t : ℚ) : DeptBlock :=
  match st with
  | .A => { d with dept_A := d.dept_A + t }
  | .B => { d with dept_B := d.dept_B + t }
  | .C => { d with dept_C := d.dept_C + t }
  | .PRIME => { d with dept_PRIME := d.dept_PRIME + t }

/-- Department-level effect of one row: shift subtotal, total, employee
list, and head count (incremented only when the employee is new to this
department). -/
def stepDept (r : JoinedRow) (t : ℚ) (d : DeptBlock) : DeptBlock :=
  { d.shiftAdd r.shift_type t with
    dept_total := d.dept_total + t
    employees := updEmployees r t d.employees
    dept_head_count := d.dept_head_count + (if deptHasEmp d r.emp_id then 0 else 1) }

def ClientBlock.shiftAdd (c : ClientBlock) (st : ShiftType) (t : ℚ) : ClientBlock :=
  match st with
  | .A => { c with client_A := c.client_A + t }
  | .B => { c with client_B := c.client_B + t }
  | .C => { c with client_C := c.client_C + t }
  | .PRIME => { c with client_PRIME := c.client_PRIME + t }

def stepClient (r : JoinedRow) (t : ℚ) (dk : String) (c : ClientBlock) : ClientBlock :=
  { c.shiftAdd r.shift_type t with
    departments := updA dk emptyDeptBlock (stepDept r t) c.departments
    client_head_count := c.client_head_count + (if clientHasEmp c dk r.emp_id then 0 else 1)
    client_total := c.client_total + t }

def MonthTotal.shiftAdd (mt : MonthTotal) (st : ShiftType) (t : ℚ) : MonthTotal :=
  match st with
  | .A => { mt with A := mt.A + t }
  | .B => { mt with B := mt.B + t }
  | .C => { mt with C := mt.C + t }
  | .PRIME => { mt with PRIME := mt.PRIME + t }

/-- `(client or "").strip()` / `(dept or "").strip()` (lines 250-251). -/
def clientKeyOf (r : JoinedRow) : String := strTrim (r.client.getD "")

def deptKeyOf (r : JoinedRow) : String := strTrim (r.department.getD "")

/-- Whole-period effect of one row (lines 250-291).  The head-count
increments mirror lines 279-282: they fire exactly when the employee id is
not yet present in the row's department (the Python code computes this
once and bumps all three levels; here each level reads the same fact off
its own sub-structure, which is equal by construction). -/
def stepData (r : JoinedRow) (clients : List (String × ClientBlock)) (mt : MonthTotal) :
    List (String × ClientBlock) × MonthTotal :=
  let t := r.days * r.amount
  let ck := clientKeyOf r
  let dk := deptKeyOf r
  (updA ck emptyClientBlock (stepClient r t dk) clients,
   { mt.shiftAdd r.shift_type t with
     total_head_count :=
       mt.total_head_count + (if clientsHaveEmp clients ck dk r.emp_id then 0 else 1)
     total_allowance := mt.total_allowance + t })

/-- Lines 240-248: a period still holding the skeleton message is replaced
by an empty data block before the row is added. -/
def stepBlock (r : JoinedRow) : PeriodBlock → PeriodBlock
  | .message _ =>
    let s := stepData r [] emptyMonthTotal
    .data s.1 s.2
  | .data cs mt =>
    let s := stepData r cs mt
    .data s.1 s.2

def addRow (quarterMode : Bool) (qmap : List (PKey × List Month))
    (resp : SummaryResp) (r : JoinedRow) : SummaryResp :=
  updExisting (summaryRowKey quarterMode qmap r.duration_month) (stepBlock r) resp

def populateSummary (quarterMode : Bool) (qmap : List (PKey × List Month))
    (resp : SummaryResp) (rows : List JoinedRow) : SummaryResp :=
  rows.foldl (addRow quarterMode qmap) resp

/-- Placeholder department inserted by the gap reconciler (lines 307-314):
zero totals, an empty employee list, and an `"error"` marker. -/
def placeholderDept (cname dept : String) (k : PKey) : DeptBlock :=
  { emptyDeptBlock with
    no_data_error :=
      some ("No data available for " ++ cname ++ " - " ++ dept ++ " in " ++ pkeyStr k) }

def zfDepts (cname : String) (k : PKey) :
    List String → List (String × DeptBlock) → List (String × DeptBlock)
  | [], l => l
  | d :: ds, l =>
    zfDepts cname k ds
      (if (findA d l).isSome then l else l ++ [(d, placeholderDept cname d k)])

def zfClients (k : PKey) :
    List (String × List String) → List (String × ClientBlock) →
      List (String × ClientBlock)
  | [], cs => cs
  | e :: es, cs =>
    zfClients k es
      (updA e.1 emptyClientBlock
        (fun cb => { cb with departments := zfDepts e.1 k e.2 cb.departments }) cs)

/-- Lines 293-314: with a dict `clients` payload, every listed client and
department is inserted into every *populated* period; periods still
holding the skeleton message are skipped (`if "clients" not in
period_block: continue`). -/
def zeroFillSummary (p : SummaryPayload) (resp : SummaryResp) : SummaryResp :=
  match p.clients with
  | .mapping entries =>
    resp.map fun kb =>
      match kb.2 with
      | .message s => (kb.1, .message s)
      | .data cs mt => (kb.1, .data (zfClients kb.1 entries cs) mt)
  | _ => resp

/-- The aggregation pipeline applied after period resolution. -/
def summaryPipeline (db : DB) (p : SummaryPayload) (rp : ResolvedPeriods) : SummaryResp :=
  let quarterMode := !p.selected_quarters.isEmpty
  zeroFillSummary p
    (populateSummary quarterMode rp.quarter_map
      (summarySkeleton rp quarterMode)
      (summaryRows db rp quarterMode))

/-- `client_summary_service(db, payload)` (line 66), with `date.today()`
passed explicitly. -/
def client_summary_service (today : Month) (db : DB) (p : SummaryPayload) :
    Except ApiError SummaryResp :=
  (resolveSummaryPeriods today db p).map (summaryPipeline db p)

/-! ### Conservation invariant (claim C1)

At every node of the response: the total equals the sum of the four
shift-type subtotals and equals the sum of the children's totals. -/

def EmpInv (e : EmpBlock) : Prop := e.total = e.A + e.B + e.C + e.PRIME

def DeptInv (d : DeptBlock) : Prop :=
  d.dept_total = d.dept_A + d.dept_B + d.dept_C + d.dept_PRIME ∧
  d.dept_total = (d.employees.map (·.total)).sum ∧
  ∀ e ∈ d.employees, EmpInv e

def ClientInv (c : ClientBlock) : Prop :=
  c.client_total = c.client_A + c.client_B + c.client_C + c.client_PRIME ∧
  c.client_total = sumBy DeptBlock.dept_total c.departments ∧
  ∀ p ∈ c.departments, DeptInv p.2

def BlockInv : PeriodBlock → Prop
  | .message _ => True
  | .data cs mt =>
    mt.total_allowance = mt.A + mt.B + mt.C + mt.PRIME ∧
    mt.total_allowance = sumBy ClientBlock.client_total cs ∧
    ∀ p ∈ cs, ClientInv p.2

def RespInv (resp : SummaryResp) : Prop := ∀ p ∈ resp, BlockInv p.2

instance (e : EmpBlock) : Decidable (EmpInv e) := by
  unfold EmpInv; infer_instance

instance (d : DeptBlock) : Decidable (DeptInv d) := by
  unfold DeptInv; infer_instance

instance (c : ClientBlock) : Decidable (ClientInv c) := by
  unfold ClientInv; infer_instance

instance (b : PeriodBlock) : Decidable (BlockInv b) := by
  cases b with
  | message s => exact isTrue trivial
  | data cs mt => unfold BlockInv; infer_instance

instance (resp : SummaryResp) : Decidable (RespInv resp) := by
  unfold RespInv; infer_instance

theorem addToEmp_total (e : EmpBlock) (st : ShiftType) (t : ℚ) :
    (addToEmp e st t).total = e.total + t := by
  cases st <;> rfl

theorem empInv_addToEmp (e : EmpBlock) (st : ShiftType) (t : ℚ) :
    EmpInv e → EmpInv (addToEmp e st t) := by
  intro h
  cases st <;> simp [addToEmp, EmpBlock.shiftAdd, EmpInv] at * <;> linarith

theorem empInv_newEmp (r : JoinedRow) : EmpInv (newEmp r) := by
  simp [EmpInv, newEmp]

theorem sum_updEmployees (r : JoinedRow) (t : ℚ) :
    ∀ l : List EmpBlock,
      ((updEmployees r t l).map (·.total)).sum = (l.map (·.total)).sum + t
  | [] => by simp [updEmployees, addToEmp_total, newEmp]
  | e :: rest => by
    by_cases h : e.emp_id = r.emp_id
    · simp only [updEmployees, if_pos h, List.map_cons, List.sum_cons,
        addToEmp_total]
      ring
    · simp only [updEmployees, if_neg h, List.map_cons, List.sum_cons,
        sum_updEmployees r t rest]
      ring

theorem empInv_updEmployees (r : JoinedRow) (t : ℚ) :
    ∀ l : List EmpBlock, (∀ e ∈ l, EmpInv e) →
      ∀ e ∈ updEmployees r t l, EmpInv e
  | [], _ => by
    intro e he
    simp only [updEmployees, List.mem_singleton] at he
    subst he
    exact empInv_addToEmp _ _ _ (empInv_newEmp r)
  | e0 :: rest, hl => by
    have hv : EmpInv e0 := hl _ (List.mem_cons_self _ _)
    have hrest : ∀ e ∈ rest, EmpInv e := fun e he => hl _ (List.mem_cons_of_mem _ he)
    by_cases h : e0.emp_id = r.emp_id
    · simp only [updEmployees, if_pos h]
      intro e he
      rcases List.mem_cons.mp he with h1 | h1
      · subst h1; exact empInv_addToEmp _ _ _ hv
      · exact hrest _ h1
    · simp only [updEmployees, if_neg h]
      intro e he
      rcases List.mem_cons.mp he with h1 | h1
      · subst h1; exact hv
      · exact empInv_updEmployees r t rest hrest e h1

theorem stepDept_total (r : JoinedRow) (t : ℚ) (d : DeptBlock) :
    (stepDept r t d).dept_total = d.dept_total + t := by
  cases hst : r.shift_type <;> simp [stepDept, DeptBlock.shiftAdd, hst]

theorem deptInv_stepDept (r : JoinedRow) (t : ℚ) (d : DeptBlock) :
    DeptInv d → DeptInv (stepDept r t d) := by
  rintro ⟨h1, h2, h3⟩
  refine ⟨?_, ?_, ?_⟩
  · cases hst : r.shift_type <;>
      simp [stepDept, DeptBlock.shiftAdd, hst] <;> linarith
  · have he : ((updEmployees r t d.employees).map (·.total)).sum
        = (d.employees.map (·.total)).sum + t := sum_updEmployees r t d.employees
    cases hst : r.shift_type <;>
      simp [stepDept, DeptBlock.shiftAdd, hst, he] <;> linarith
  · intro e he
    have : e ∈ updEmployees r t d.employees := by
      cases hst : r.shift_type <;>
        simpa [stepDept, DeptBlock.shiftAdd, hst] using he
    exact empInv_updEmployees r t d.employees h3 e this

theorem deptInv_empty : DeptInv emptyDeptBlock := by
  refine ⟨by simp [emptyDeptBlock], by simp [emptyDeptBlock], ?_⟩
  intro e he
  simp [emptyDeptBlock] at he

theorem stepClient_total (r : JoinedRow) (t : ℚ) (dk : String) (c : ClientBlock) :
    (stepClient r t dk c).client_total = c.client_total + t := by
  cases hst : r.shift_type <;> simp [stepClient, ClientBlock.shiftAdd, hst]

theorem stepClient_departments (r : JoinedRow) (t : ℚ) (dk : String) (c : ClientBlock) :
    (stepClient r t dk c).departments
      = updA dk emptyDeptBlock (stepDept r t) c.departments := by
  cases hst : r.shift_type <;> simp [stepClient, ClientBlock.shiftAdd, hst]

theorem clientInv_stepClient (r : JoinedRow) (t : ℚ) (dk : String) (c : ClientBlock) :
    ClientInv c → ClientInv (stepClient r t dk c) := by
  rintro ⟨h1, h2, h3⟩
  have hsum : sumBy DeptBlock.dept_total (updA dk emptyDeptBlock (stepDept r t) c.departments)
      = sumBy DeptBlock.dept_total c.departments + t := by
    have := sumBy_updA DeptBlock.dept_total (fun _ => t) dk emptyDeptBlock
      (stepDept r t) (fun v => stepDept_total r t v) (by simp [emptyDeptBlock])
      c.departments
    simpa using this
  refine ⟨?_, ?_, ?_⟩
  · cases hst : r.shift_type <;>
      simp [stepClient, ClientBlock.shiftAdd, hst] <;> linarith
  · rw [stepClient_total, stepClient_departments, hsum, h2]
  · rw [stepClient_departments]
    exact forall_updA DeptInv dk emptyDeptBlock (stepDept r t)
      (fun v => deptInv_stepDept r t v)
      (deptInv_stepDept r t _ deptInv_empty) c.departments h3

theorem clientInv_empty : ClientInv emptyClientBlock := by
  refine ⟨by simp [emptyClientBlock], by simp [emptyClientBlock, sumBy], ?_⟩
  intro p hp
  simp [emptyClientBlock] at hp

theorem blockInv_stepData (r : JoinedRow) (cs : List (String × ClientBlock))
    (mt : MonthTotal) :
    BlockInv (.data cs mt) → BlockInv (.data (stepData r cs mt).1 (stepData r cs mt).2) := by
  rintro ⟨h1, h2, h3⟩
  set t := r.days * r.amount with ht
  have hsum : sumBy ClientBlock.client_total
      (updA (clientKeyOf r) emptyClientBlock (stepClient r t (deptKeyOf r)) cs)
      = sumBy ClientBlock.client_total cs + t := by
    have := sumBy_updA ClientBlock.client_total (fun _ => t) (clientKeyOf r)
      emptyClientBlock (stepClient r t (deptKeyOf r))
      (fun v => stepClient_total r t (deptKeyOf r) v) (by simp [emptyClientBlock]) cs
    simpa using this
  refine ⟨?_, ?_, ?_⟩
  · cases hst : r.shift_type <;>
      simp [stepData, MonthTotal.shiftAdd, hst] <;> linarith
  · have hmt : (stepData r cs mt).2.total_allowance = mt.total_allowance + t := by
      cases hst : r.shift_type <;> simp [stepData, MonthTotal.shiftAdd, hst]
    have hcs : (stepData r cs mt).1
        = updA (clientKeyOf r) emptyClientBlock (stepClient r t (deptKeyOf r)) cs := by
      simp [stepData]
    rw [hmt, hcs, hsum, h2]
  · have hcs : (stepData r cs mt).1
        = updA (clientKeyOf r) emptyClientBlock (stepClient r t (deptKeyOf r)) cs := by
      simp [stepData]
    rw [hcs]
    exact forall_updA ClientInv (clientKeyOf r) emptyClientBlock
      (stepClient r t (deptKeyOf r)) (fun v => clientInv_stepClient r t (deptKeyOf r) v)
      (clientInv_stepClient r t (deptKeyOf r) _ clientInv_empty) cs h3

theorem blockInv_empty_data : BlockInv (.data [] emptyMonthTotal) := by
  refine ⟨by simp [emptyMonthTotal], by simp [emptyMonthTotal, sumBy], ?_⟩
  intro p hp
  simp at hp

theorem blockInv_stepBlock (r : JoinedRow) (b : PeriodBlock) :
    BlockInv b → BlockInv (stepBlock r b) := by
  intro hb
  cases b with
  | message s => exact blockInv_stepData r [] emptyMonthTotal blockInv_empty_data
  | data cs mt => exact blockInv_stepData r cs mt hb

theorem respInv_addRow (quarterMode : Bool) (qmap : List (PKey × List Month))
    (resp : SummaryResp) (r : JoinedRow) :
    RespInv resp → RespInv (addRow quarterMode qmap resp r) :=
  fun h => forall_updExisting BlockInv _ (stepBlock r)
    (fun b => blockInv_stepBlock r b) resp h

theorem respInv_populate (quarterMode : Bool) (qmap : List (PKey × List Month)) :
    ∀ (rows : List JoinedRow) (resp : SummaryResp),
      RespInv resp → RespInv (populateSummary quarterMode qmap resp rows)
  | [], resp, h => h
  | r :: rows, resp, h =>
    respInv_populate quarterMode qmap rows _
      (respInv_addRow quarterMode qmap resp r h)

theorem forall_setA {κ β : Type} [DecidableEq κ] (P : β → Prop) (k : κ) (v : β)
    (hv : P v) :
    ∀ l : List (κ × β), (∀ p ∈ l, P p.2) → ∀ p ∈ setA k v l, P p.2
  | [], _ => by
    intro p hp
    simp only [setA, List.mem_singleton] at hp
    subst hp; exact hv
  | (k', v') :: rest, hl => by
    have hv' : P v' := hl _ (List.mem_cons_self _ _)
    have hrest : ∀ q ∈ rest, P q.2 := fun q hq => hl _ (List.mem_cons_of_mem _ hq)
    by_cases h : k' = k
    · simp only [setA, if_pos h]
      intro p hp
      rcases List.mem_cons.mp hp with h1 | h1
      · subst h1; exact hv
      · exact hrest _ h1
    · simp only [setA, if_neg h]
      intro p hp
      rcases List.mem_cons.mp hp with h1 | h1
      · subst h1; exact hv'
      · exact forall_setA P k v hv rest hrest p h1

theorem forall_skeletonOf (P : PeriodBlock → Prop)
    (hm : ∀ s, P (.message s)) :
    ∀ (ks : List PKey) (acc : SummaryResp), (∀ p ∈ acc, P p.2) →
      ∀ p ∈ skeletonOf ks acc, P p.2
  | [], acc, h => h
  | k :: ks, acc, h =>
    forall_skeletonOf P hm ks _ (forall_setA P k _ (hm _) acc h)

theorem respInv_skeleton (rp : ResolvedPeriods) (quarterMode : Bool) :
    RespInv (summarySkeleton rp quarterMode) := by
  unfold summarySkeleton
  by_cases h : quarterMode = true
  · simp only [h, if_pos]
    exact forall_skeletonOf BlockInv (fun s => trivial) _ [] (by simp)
  · simp only [h]
    simp only [Bool.not_eq_true] at h
    simp only [h, Bool.false_eq_true, if_false]
    exact forall_skeletonOf BlockInv (fun s => trivial) _ [] (by simp)

theorem sum_zfDepts (cname : String) (k : PKey) :
    ∀ (ds : List String) (l : List (String × DeptBlock)),
      sumBy DeptBlock.dept_total (zfDepts cname k ds l)
        = sumBy DeptBlock.dept_total l
  | [], l => rfl
  | d :: ds, l => by
    by_cases h : (findA d l).isSome
    · simp only [zfDepts, if_pos h, sum_zfDepts cname k ds l]
    · simp only [zfDepts, if_neg h, sum_zfDepts cname k ds _]
      simp [sumBy, placeholderDept, emptyDeptBlock]

theorem forall_zfDepts (cname : String) (k : PKey) (P : DeptBlock → Prop)
    (hp : ∀ d, P (placeholderDept cname d k)) :
    ∀ (ds : List String) (l : List (String × DeptBlock)),
      (∀ p ∈ l, P p.2) → ∀ p ∈ zfDepts cname k ds l, P p.2
  | [], l, h => h
  | d :: ds, l, h => by
    by_cases hf : (findA d l).isSome
    · simp only [zfDepts, if_pos hf]
      exact forall_zfDepts cname k P hp ds l h
    · simp only [zfDepts, if_neg hf]
      refine forall_zfDepts cname k P hp ds _ ?_
      intro p hl
      rcases List.mem_append.mp hl with h1 | h1
      · exact h p h1
      · rcases List.mem_singleton.mp h1 with rfl
        exact hp d

theorem deptInv_placeholder (cname d : String) (k : PKey) :
    DeptInv (placeholderDept cname d k) := by
  refine ⟨by simp [placeholderDept, emptyDeptBlock],
    by simp [placeholderDept, emptyDeptBlock], ?_⟩
  intro e he
  simp [placeholderDept, emptyDeptBlock] at he

theorem clientInv_zfStep (cname : String) (ds : List String) (k : PKey)
    (cb : ClientBlock) :
    ClientInv cb →
      ClientInv { cb with departments := zfDepts cname k ds cb.departments } := by
  rintro ⟨h1, h2, h3⟩
  refine ⟨h1, ?_, ?_⟩
  · simpa [sum_zfDepts] using h2
  · exact forall_zfDepts cname k DeptInv (fun d => deptInv_placeholder cname d k)
      ds cb.departments h3

theorem blockInv_zfClients (k : PKey) :
    ∀ (entries : List (String × List String)) (cs : List (String × ClientBlock))
      (mt : MonthTotal),
      BlockInv (.data cs mt) → BlockInv (.data (zfClients k entries cs) mt)
  | [], cs, mt, h => h
  | e :: es, cs, mt, h => by
    rcases h with ⟨h1, h2, h3⟩
    refine blockInv_zfClients k es _ mt ⟨h1, ?_, ?_⟩
    · rw [h2]
      have := sumBy_updA ClientBlock.client_total (fun _ => (0 : ℚ)) e.1
        emptyClientBlock
        (fun cb => { cb with departments := zfDepts e.1 k e.2 cb.departments })
        (fun v => by simp) (by simp [emptyClientBlock]) cs
      simp only [add_zero] at this
      rw [this]
    · exact forall_updA ClientInv e.1 emptyClientBlock _
        (fun v => clientInv_zfStep e.1 e.2 k v)
        (clientInv_zfStep e.1 e.2 k _ clientInv_empty) cs h3

theorem respInv_zeroFill (p : SummaryPayload) (resp : SummaryResp) :
    RespInv resp → RespInv (zeroFillSummary p resp) := by
  intro h
  unfold zeroFillSummary
  cases hc : p.clients with
  | mapping entries =>
    intro q hq
    rcases List.mem_map.mp hq with ⟨kb, hkb, hmap⟩
    have hb : BlockInv kb.2 := h kb hkb
    cases hkb2 : kb.2 with
    | message s =>
      subst hmap
      simp only [hkb2]
      trivial
    | data cs mt =>
      subst hmap
      simp only [hkb2]
      exact blockInv_zfClients kb.1 entries cs mt (hkb2 ▸ hb)
  | absent => exact h
  | all => exact h

/-- C1 (conservation):  Every successful `client_summary_service`
response satisfies: in every populated period, the period total's
`total_allowance` equals the sum of its shift-type subtotals and the sum
of the clients' `client_total`; each `client_total` equals the sum of the
client's shift-type subtotals and the sum of its departments'
`dept_total`; each `dept_total` equals the sum of the department's
shift-type subtotals and the sum of its employees' `total`; and each
employee's `total` equals the sum of that employee's shift-type
subtotals. -/
theorem summary_conservation (today : Month) (db : DB) (p : SummaryPayload)
    (resp : SummaryResp) (h : client_summary_service today db p = .ok resp) :
    RespInv resp := by
  unfold client_summary_service at h
  cases hres : resolveSummaryPeriods today db p with
  | error e => rw [hres] at h; exact absurd h (by simp [Except.map])
  | ok rp =>
    rw [hres] at h
    simp only [Except.map] at h
    have : summaryPipeline db p rp = resp := by
      injection h
    subst this
    unfold summaryPipeline
    exact respInv_zeroFill p _
      (respInv_populate _ _ _ _ (respInv_skeleton rp _))

/-! ### Head-count structure (claim C2)

What the populate loop actually maintains: employee lists are duplicate
free *within a department*, `dept_head_count` is the department's employee
count, and the client / period head counts are the *sums* of the
department head counts (an employee occurring in several departments is
counted once per department). -/

def DeptHeads (d : DeptBlock) : Prop :=
  (d.employees.map (·.emp_id)).Nodup ∧ d.dept_head_count = d.employees.length

def ClientHeads (c : ClientBlock) : Prop :=
  (∀ p ∈ c.departments, DeptHeads p.2) ∧
  c.client_head_count = sumBy DeptBlock.dept_head_count c.departments

def BlockHeads : PeriodBlock → Prop
  | .message _ => True
  | .data cs mt =>
    (∀ p ∈ cs, ClientHeads p.2) ∧
    mt.total_head_count = sumBy ClientBlock.client_head_count cs

def RespHeads (resp : SummaryResp) : Prop := ∀ p ∈ resp, BlockHeads p.2

instance (d : DeptBlock) : Decidable (DeptHeads d) := by
  unfold DeptHeads; infer_instance

instance (c : ClientBlock) : Decidable (ClientHeads c) := by
  unfold ClientHeads; infer_instance

instance (b : PeriodBlock) : Decidable (BlockHeads b) := by
  cases b with
  | message s => exact isTrue trivial
  | data cs mt => unfold BlockHeads; infer_instance

instance (resp : SummaryResp) : Decidable (RespHeads resp) := by
  unfold RespHeads; infer_instance

theorem addToEmp_emp_id (e : EmpBlock) (st : ShiftType) (t : ℚ) :
    (addToEmp e st t).emp_id = e.emp_id := by
  cases st <;> rfl

theorem map_id_updEmployees (r : JoinedRow) (t : ℚ) :
    ∀ l : List EmpBlock,
      (updEmployees r t l).map (·.emp_id)
        = if l.any (fun e => decide (e.emp_id = r.emp_id))
          then l.map (·.emp_id) else l.map (·.emp_id) ++ [r.emp_id]
  | [] => by simp [updEmployees, addToEmp_emp_id, newEmp]
  | e :: rest => by
    by_cases h : e.emp_id = r.emp_id
    · simp [updEmployees, h, addToEmp_emp_id]
    · simp only [updEmployees, if_neg h, List.map_cons, List.any_cons,
        map_id_updEmployees r t rest]
      by_cases h2 : rest.any (fun e => decide (e.emp_id = r.emp_id)) <;>
        simp [h, h2]

theorem deptHeads_stepDept (r : JoinedRow) (t : ℚ) (d : DeptBlock) :
    DeptHeads d → DeptHeads (stepDept r t d) := by
  rintro ⟨hnd, hlen⟩
  have hemp : (stepDept r t d).employees = updEmployees r t d.employees := by
    cases hst : r.shift_type <;> simp [stepDept, DeptBlock.shiftAdd, hst]
  have hhc : (stepDept r t d).dept_head_count
      = d.dept_head_count + (if deptHasEmp d r.emp_id then 0 else 1) := by
    cases hst : r.shift_type <;> simp [stepDept, DeptBlock.shiftAdd, hst]
  constructor
  · rw [hemp, map_id_updEmployees]
    by_cases h : d.employees.any (fun e => decide (e.emp_id = r.emp_id))
    · simpa [h] using hnd
    · simp only [h, Bool.false_eq_true, if_false]
      rw [List.nodup_append]
      refine ⟨hnd, List.nodup_singleton _, ?_⟩
      intro x hx hx1
      rcases List.mem_singleton.mp hx1 with rfl
      rcases List.mem_map.mp hx with ⟨e, he, he2⟩
      have : ¬ (decide (e.emp_id = r.emp_id) = true) := by
        intro hdec
        exact h (List.any_eq_true.mpr ⟨e, he, hdec⟩)
      exact this (by simpa using he2)
  · rw [hemp, hhc, hlen]
    have hlm : (updEmployees r t d.employees).length
        = ((updEmployees r t d.employees).map (·.emp_id)).length := by
      simp
    rw [hlm, map_id_updEmployees]
    have : deptHasEmp d r.emp_id
        = d.employees.any (fun e => decide (e.emp_id = r.emp_id)) := rfl
    by_cases h : d.employees.any (fun e => decide (e.emp_id = r.emp_id)) <;>
      simp [this, h]

theorem deptHeads_empty : DeptHeads emptyDeptBlock := by
  constructor <;> simp [emptyDeptBlock]

theorem stepDept_head_inc (r : JoinedRow) (t : ℚ) (v : DeptBlock) :
    (stepDept r t v).dept_head_count
      = v.dept_head_count + (if deptHasEmp v r.emp_id then 0 else 1) := by
  cases hst : r.shift_type <;> simp [stepDept, DeptBlock.shiftAdd, hst]

theorem clientHeads_stepClient (r : JoinedRow) (t : ℚ) (dk : String)
    (c : ClientBlock) : ClientHeads c → ClientHeads (stepClient r t dk c) := by
  rintro ⟨hall, hsum⟩
  have hhc : (stepClient r t dk c).client_head_count
      = c.client_head_count + (if clientHasEmp c dk r.emp_id then 0 else 1) := by
    cases hst : r.shift_type <;> simp [stepClient, ClientBlock.shiftAdd, hst]
  have hupd := sumBy_updA DeptBlock.dept_head_count
    (fun v => if deptHasEmp v r.emp_id then 0 else 1) dk emptyDeptBlock
    (stepDept r t) (fun v => stepDept_head_inc r t v)
    (by simp [emptyDeptBlock]) c.departments
  constructor
  · rw [stepClient_departments]
    exact forall_updA DeptHeads dk emptyDeptBlock (stepDept r t)
      (fun v => deptHeads_stepDept r t v)
      (deptHeads_stepDept r t _ deptHeads_empty) c.departments hall
  · rw [stepClient_departments, hhc, hupd, hsum]
    congr 1
    unfold clientHasEmp
    cases hf : findA dk c.departments with
    | none => simp [hf, deptHasEmp, emptyDeptBlock]
    | some d0 => simp [hf]

theorem clientHeads_empty : ClientHeads emptyClientBlock := by
  constructor
  · intro p hp; simp [emptyClientBlock] at hp
  · simp [emptyClientBlock, sumBy]

theorem stepClient_head_inc (r : JoinedRow) (t : ℚ) (dk : String) (v : ClientBlock) :
    (stepClient r t dk v).client_head_count
      = v.client_head_count + (if clientHasEmp v dk r.emp_id then 0 else 1) := by
  cases hst : r.shift_type <;> simp [stepClient, ClientBlock.shiftAdd, hst]

theorem blockHeads_stepData (r : JoinedRow) (cs : List (String × ClientBlock))
    (mt : MonthTotal) :
    BlockHeads (.data cs mt) →
      BlockHeads (.data (stepData r cs mt).1 (stepData r cs mt).2) := by
  rintro ⟨hall, hsum⟩
  set t := r.days * r.amount with ht
  have hcs : (stepData r cs mt).1
      = updA (clientKeyOf r) emptyClientBlock (stepClient r t (deptKeyOf r)) cs := by
    simp [stepData]
  have hmt : (stepData r cs mt).2.total_head_count
      = mt.total_head_count
        + (if clientsHaveEmp cs (clientKeyOf r) (deptKeyOf r) r.emp_id then 0 else 1) := by
    cases hst : r.shift_type <;> simp [stepData, MonthTotal.shiftAdd, hst]
  have hupd := sumBy_updA ClientBlock.client_head_count
    (fun v => if clientHasEmp v (deptKeyOf r) r.emp_id then 0 else 1)
    (clientKeyOf r) emptyClientBlock (stepClient r t (deptKeyOf r))
    (fun v => stepClient_head_inc r t (deptKeyOf r) v)
    (by simp [emptyClientBlock]) cs
  constructor
  · rw [hcs]
    exact forall_updA ClientHeads (clientKeyOf r) emptyClientBlock _
      (fun v => clientHeads_stepClient r t (deptKeyOf r) v)
      (clientHeads_stepClient r t (deptKeyOf r) _ clientHeads_empty) cs hall
  · rw [hcs, hmt, hupd, hsum]
    congr 1
    unfold clientsHaveEmp
    cases hf : findA (clientKeyOf r) cs with
    | none => simp [hf, clientHasEmp, emptyClientBlock, findA, deptHasEmp]
    | some c0 => simp [hf]

theorem blockHeads_empty_data : BlockHeads (.data [] emptyMonthTotal) := by
  constructor
  · intro p hp; simp at hp
  · simp [emptyMonthTotal, sumBy]

theorem blockHeads_stepBlock (r : JoinedRow) (b : PeriodBlock) :
    BlockHeads b → BlockHeads (stepBlock r b) := by
  intro hb
  cases b with
  | message s => exact blockHeads_stepData r [] emptyMonthTotal blockHeads_empty_data
  | data cs mt => exact blockHeads_stepData r cs mt hb

theorem respHeads_populate (quarterMode : Bool) (qmap : List (PKey × List Month)) :
    ∀ (rows : List JoinedRow) (resp : SummaryResp),
      RespHeads resp → RespHeads (populateSummary quarterMode qmap resp rows)
  | [], _, h => h
  | r :: rows, resp, h =>
    respHeads_populate quarterMode qmap rows _
      (forall_updExisting BlockHeads _ (stepBlock r)
        (fun b => blockHeads_stepBlock r b) resp h)

theorem respHeads_skeleton (rp : ResolvedPeriods) (quarterMode : Bool) :
    RespHeads (summarySkeleton rp quarterMode) := by
  unfold summarySkeleton
  by_cases h : quarterMode = true
  · simp only [h, if_pos]
    exact forall_skeletonOf BlockHeads (fun s => trivial) _ [] (by simp)
  · simp only [Bool.not_eq_true] at h
    simp only [h, Bool.false_eq_true, if_false]
    exact forall_skeletonOf BlockHeads (fun s => trivial) _ [] (by simp)

theorem sum_heads_zfDepts (cname : String) (k : PKey) :
    ∀ (ds : List String) (l : List (String × DeptBlock)),
      sumBy DeptBlock.dept_head_count (zfDepts cname k ds l)
        = sumBy DeptBlock.dept_head_count l
  | [], l => rfl
  | d :: ds, l => by
    by_cases h : (findA d l).isSome
    · simp only [zfDepts, if_pos h, sum_heads_zfDepts cname k ds l]
    · simp only [zfDepts, if_neg h, sum_heads_zfDepts cname k ds _]
      simp [sumBy, placeholderDept, emptyDeptBlock]

theorem deptHeads_placeholder (cname d : String) (k : PKey) :
    DeptHeads (placeholderDept cname d k) := by
  constructor <;> simp [placeholderDept, emptyDeptBlock]

theorem clientHeads_zfStep (cname : String) (ds : List String) (k : PKey)
    (cb : ClientBlock) :
    ClientHeads cb →
      ClientHeads { cb with departments := zfDepts cname k ds cb.departments } := by
  rintro ⟨hall, hsum⟩
  constructor
  · exact forall_zfDepts cname k DeptHeads
      (fun d => deptHeads_placeholder cname d k) ds cb.departments hall
  · simpa [sum_heads_zfDepts] using hsum

theorem blockHeads_zfClients (k : PKey) :
    ∀ (entries : List (String × List String)) (cs : List (String × ClientBlock))
      (mt : MonthTotal),
      BlockHeads (.data cs mt) → BlockHeads (.data (zfClients k entries cs) mt)
  | [], _, _, h => h
  | e :: es, cs, mt, h => by
    rcases h with ⟨hall, hsum⟩
    refine blockHeads_zfClients k es _ mt ⟨?_, ?_⟩
    · exact forall_updA ClientHeads e.1 emptyClientBlock _
        (fun v => clientHeads_zfStep e.1 e.2 k v)
        (clientHeads_zfStep e.1 e.2 k _ clientHeads_empty) cs hall
    · rw [hsum]
      have := sumBy_updA ClientBlock.client_head_count (fun _ => (0 : ℕ)) e.1
        emptyClientBlock
        (fun cb => { cb with departments := zfDepts e.1 k e.2 cb.departments })
        (fun v => by simp) (by simp [emptyClientBlock]) cs
      simp only [add_zero] at this
      rw [this]

theorem respHeads_zeroFill (p : SummaryPayload) (resp : SummaryResp) :
    RespHeads resp → RespHeads (zeroFillSummary p resp) := by
  intro h
  unfold zeroFillSummary
  cases hc : p.clients with
  | mapping entries =>
    intro q hq
    rcases List.mem_map.mp hq with ⟨kb, hkb, hmap⟩
    have hb : BlockHeads kb.2 := h kb hkb
    cases hkb2 : kb.2 with
    | message s => subst hmap; simp only [hkb2]; trivial
    | data cs mt =>
      subst hmap
      simp only [hkb2]
      exact blockHeads_zfClients kb.1 entries cs mt (hkb2 ▸ hb)
  | absent => exact h
  | all => exact h

theorem respHeads_service (today : Month) (db : DB) (p : SummaryPayload)
    (resp : SummaryResp) (h : client_summary_service today db p = .ok resp) :
    RespHeads resp := by
  unfold client_summary_service at h
  cases hres : resolveSummaryPeriods today db p with
  | error e => rw [hres] at h; exact absurd h (by simp [Except.map])
  | ok rp =>
    rw [hres] at h
    simp only [Except.map] at h
    have : summaryPipeline db p rp = resp := by injection h
    subst this
    unfold summaryPipeline
    exact respHeads_zeroFill p _
      (respHeads_populate _ _ _ _ (respHeads_skeleton rp _))

/-! ### Concrete fixtures and the C1/C2 claim theorems -/

/-- A fixed current date for concrete runs. -/
def todayX : Month := ⟨2024, 5⟩

/-- One employee, one shift mapping, one matching rate. -/
def dbOne : DB :=
  ⟨[⟨1, "E1", "Alice", some "IT", some "Acme", some "AM", ⟨2024, 1⟩, ⟨2024, 2⟩⟩],
   [⟨1, .A, 2⟩],
   [⟨.A, 500, 2024⟩]⟩

/-- Payload selecting the single month 2024-01 via an explicit range. -/
def pRangeJan : SummaryPayload :=
  ⟨none, [], [], some ⟨2024, 1⟩, some ⟨2024, 1⟩, .absent⟩

def respOne : SummaryResp :=
  (client_summary_service todayX dbOne pRangeJan).toOption.getD []

attribute [local semireducible] Rat.mul Rat.add Rat.sub Rat.inv in
theorem summary_conservation_witness :
    client_summary_service todayX dbOne pRangeJan = .ok respOne ∧ RespInv respOne :=
  ⟨by decide, summary_conservation todayX dbOne pRangeJan respOne (by decide)⟩

/-- C2 (amended):  In every successful `client_summary_service`
response: each department's `dept_head_count` equals the number of
distinct employee ids among that department's employee leaves, while
`client_head_count` and `total_head_count` equal the *sum over
departments* of the department head counts — so an employee appearing in
several shift types within one department contributes 1, but an employee
appearing in several departments (or clients) of the same period
contributes once per department. -/
theorem summary_head_count_struct (today : Month) (db : DB) (p : SummaryPayload)
    (resp : SummaryResp) (h : client_summary_service today db p = .ok resp) :
    ∀ kb ∈ resp, ∀ cs mt, kb.2 = .data cs mt →
      mt.total_head_count = sumBy ClientBlock.client_head_count cs ∧
      ∀ c ∈ cs,
        c.2.client_head_count = sumBy DeptBlock.dept_head_count c.2.departments ∧
        ∀ d ∈ c.2.departments,
          d.2.dept_head_count = ((d.2.employees.map (·.emp_id)).dedup).length := by
  intro kb hkb cs mt heq
  have hb := respHeads_service today db p resp h kb hkb
  rw [heq] at hb
  rcases hb with ⟨hall, hsum⟩
  refine ⟨hsum, ?_⟩
  intro c hc
  rcases hall c hc with ⟨hdall, hcsum⟩
  refine ⟨hcsum, ?_⟩
  intro d hd
  rcases hdall d hd with ⟨hnd, hlen⟩
  rw [List.dedup_eq_self.mpr hnd]
  simpa using hlen

attribute [local semireducible] Rat.mul Rat.add Rat.sub Rat.inv in
theorem summary_head_count_struct_witness :
    client_summary_service todayX dbOne pRangeJan = .ok respOne ∧
      (∀ kb ∈ respOne, ∀ cs mt, kb.2 = .data cs mt →
        mt.total_head_count = sumBy ClientBlock.client_head_count cs ∧
        ∀ c ∈ cs,
          c.2.client_head_count = sumBy DeptBlock.dept_head_count c.2.departments ∧
          ∀ d ∈ c.2.departments,
            d.2.dept_head_count = ((d.2.employees.map (·.emp_id)).dedup).length) :=
  ⟨by decide,
   summary_head_count_struct todayX dbOne pRangeJan respOne (by decide)⟩

/-- The same employee `E1` in two departments of the same client and
period. -/
def dbTwoDept : DB :=
  ⟨[⟨1, "E1", "Alice", some "IT", some "Acme", none, ⟨2024, 1⟩, ⟨2024, 2⟩⟩,
    ⟨2, "E1", "Alice", some "HR", some "Acme", none, ⟨2024, 1⟩, ⟨2024, 2⟩⟩],
   [⟨1, .A, 2⟩, ⟨2, .B, 1⟩],
   [⟨.A, 500, 2024⟩, ⟨.B, 400, 2024⟩]⟩

def respTwoDept : SummaryResp :=
  (client_summary_service todayX dbTwoDept pRangeJan).toOption.getD []

/-- Clients mapping of a period's block (empty when the period is a
placeholder). -/
def blockClientsAt (resp : SummaryResp) (k : PKey) : List (String × ClientBlock) :=
  match findA k resp with
  | some (.data cs _) => cs
  | _ => []

def clientAt (resp : SummaryResp) (k : PKey) (ck : String) : ClientBlock :=
  (findA ck (blockClientsAt resp k)).getD emptyClientBlock

/-- All employee ids among a client's descendant employee leaves. -/
def descendantEmpIds (c : ClientBlock) : List String :=
  (c.departments.flatMap fun d => d.2.employees).map (·.emp_id)

attribute [local semireducible] Rat.mul Rat.add Rat.sub Rat.inv in
/-- C2 (counterexample):  With employee `E1` in departments IT and HR
of client Acme in the same period, the client's `client_head_count` is 2
although only one distinct employee id occurs among its descendant
employee leaves — the claimed "distinct employee count at every node"
fails at the client (and period) level. -/
theorem summary_head_distinct_cx :
    (clientAt respTwoDept (PKey.month ⟨2024, 1⟩) "Acme").client_head_count = 2 ∧
    ((descendantEmpIds (clientAt respTwoDept (PKey.month ⟨2024, 1⟩) "Acme")).dedup).length = 1 ∧
    (clientAt respTwoDept (PKey.month ⟨2024, 1⟩) "Acme").client_head_count ≠
      ((descendantEmpIds (clientAt respTwoDept (PKey.month ⟨2024, 1⟩) "Acme")).dedup).length := by
  decide

/-! ### Client comparison service (`client_comparision_service.py`)

`client_comparison_service` keys its buckets by `"YYYY-MM"` strings and
by `f"{emp_id}|{payroll_month_key}"` employee keys; both are embedded
structurally (`Month`, and the pair `(emp_id, payroll_month)`).  Dates are
month-granular: `last_day_of_month` stays within its month, so the
`duration_month` BETWEEN filter is a month-interval test. -/

/-- One tuple of the comparison query (lines 82-113). -/
structure CmpRow where
  emp_id : String
  emp_name : String
  department : Option String
  client : Option String
  account_manager : Option String
  duration_month : Month
  payroll_month : Month
  shift_type : ShiftType
  days : ℚ
  amount : ℚ
deriving DecidableEq

/-- The same inner three-way join as the summary service, selecting
`payroll_month` as well. -/
def cmpJoin (db : DB) : List CmpRow :=
  db.sas.flatMap fun sa =>
    (db.sms.filter fun sm => decide (sm.shiftallowance_id = sa.id)).flatMap fun sm =>
      (db.rates.filter fun rt =>
          decide (rt.shift_type = sm.shift_type) &&
          decide (rt.payroll_year = sa.payroll_month.year)).map fun rt =>
        { emp_id := sa.emp_id
          emp_name := sa.emp_name
          department := sa.department
          client := sa.client
          account_manager := sa.account_manager
          duration_month := sa.duration_month
          payroll_month := sa.payroll_month
          shift_type := sm.shift_type
          days := sm.days
          amount := rt.amount }

/-- Lines 103-111: exact client match, duration month in range, optional
account-manager match. -/
def cmpRowsFor (db : DB) (client_name : String) (startM endM : Month)
    (am : Option String) : List CmpRow :=
  (cmpJoin db).filter fun r =>
    decide (r.client = some client_name) &&
    decide (startM ≤ r.duration_month) && decide (r.duration_month ≤ endM) &&
    (match am with
     | none => true
     | some a => decide (r.account_manager = some a))

/-- Employee bucket (lines 155-169). -/
structure CmpEmp where
  emp_id : String
  emp_name : String
  duration_month : Month
  payroll_month : Option Month
  account_manager : Option String
  A : ℚ
  B : ℚ
  C : ℚ
  PRIME : ℚ
  total_allowance : ℚ
deriving DecidableEq

/-- Department bucket (lines 136-148).  `head_count_set` is the Python
set (duplicate-free by construction); `head_count` is written at
finalization, which also empties the set (`del`). -/
structure CmpDept where
  total_allowance : ℚ
  dept_total_A : ℚ
  dept_total_B : ℚ
  dept_total_C : ℚ
  dept_total_PRIME : ℚ
  head_count_set : List String
  head_count : Nat
  diff : ℚ
  emp : List ((String × Option Month) × CmpEmp)
deriving DecidableEq

def emptyCmpDept : CmpDept := ⟨0, 0, 0, 0, 0, [], 0, 0, []⟩

/-- `set.add`: append when absent. -/
def listInsert (s : List String) (x : String) : List String :=
  if x ∈ s then s else s ++ [x]

def newCmpEmp (r : CmpRow) : CmpEmp :=
  ⟨r.emp_id, r.emp_name, r.duration_month, some r.payroll_month,
   r.account_manager, 0, 0, 0, 0, 0⟩

def CmpEmp.shiftAdd (e : CmpEmp) (st : ShiftType) (t : ℚ) : CmpEmp :=
  match st with
  | .A => { e with A := e.A + t }
  | .B => { e with B := e.B + t }
  | .C => { e with C := e.C + t }
  | .PRIME => { e with PRIME := e.PRIME + t }

def stepCmpEmp (r : CmpRow) (t : ℚ) (e : CmpEmp) : CmpEmp :=
  { e.shiftAdd r.shift_type t with total_allowance := e.total_allowance + t }

def CmpDept.typeAdd (d : CmpDept) (st : ShiftType) (t : ℚ) : CmpDept :=
  match st with
  | .A => { d with dept_total_A := d.dept_total_A + t }
  | .B => { d with dept_total_B := d.dept_total_B + t }
  | .C => { d with dept_total_C := d.dept_total_C + t }
  | .PRIME => { d with dept_total_PRIME := d.dept_total_PRIME + t }

/-- Lines 150-186: one row's effect on its department bucket. -/
def stepCmpDept (r : CmpRow) (d : CmpDept) : CmpDept :=
  let t := r.days * r.amount
  { d.typeAdd r.shift_type t with
    total_allowance := d.total_allowance + t
    emp := updA (r.emp_id, some r.payroll_month) (newCmpEmp r) (stepCmpEmp r t) d.emp
    head_count_set := listInsert d.head_count_set r.emp_id }

/-- `department or "UNKNOWN"` (an empty string is falsy too). -/
def cmpDeptKey (r : CmpRow) : String :=
  match r.department with
  | none => "UNKNOWN"
  | some d => if d = "" then "UNKNOWN" else d

abbrev CmpData := List (Month × List (String × CmpDept))

def addCmpRow (data : CmpData) (r : CmpRow) : CmpData :=
  updA r.duration_month []
    (fun mb => updA (cmpDeptKey r) emptyCmpDept (stepCmpDept r) mb) data

def buildCmpData (rows : List CmpRow) : CmpData :=
  rows.foldl addCmpRow []

/-- Lines 188-192: freeze `head_count` as the set size and drop the set. -/
def finalizeDept (d : CmpDept) : CmpDept :=
  { d with head_count := d.head_count_set.length, head_count_set := [] }

def finalizeData (data : CmpData) : CmpData :=
  data.map fun mb => (mb.1, mb.2.map fun de => (de.1, finalizeDept de.2))

/-- Ascending stable insertion: after all elements `≤ m`, before the
first element `> m`. -/
def insertSorted (m : Month) : List Month → List Month
  | [] => [m]
  | x :: xs => if m < x then m :: x :: xs else x :: insertSorted m xs

def sortMonths : List Month → List Month
  | [] => []
  | m :: rest => insertSorted m (sortMonths rest)

/-- `sorted(data.keys())`: dict keys are unique, so any correct stable
ascending sort produces the same list; an insertion sort is used so that
concrete runs reduce. -/
def sortedMonthsOf (data : CmpData) : List Month :=
  sortMonths (data.map (·.1))

def prevOfAux (prev : Month) : List Month → Month → Option Month
  | [], _ => none
  | y :: ys, m => if y = m then some prev else prevOfAux y ys m

/-- The element right before `m` in `l` (`sorted_months[idx - 1]`). -/
def prevOf (l : List Month) (m : Month) : Option Month :=
  match l with
  | [] => none
  | x :: xs => if x = m then none else prevOfAux x xs m

/-- Lines 196-207: department-over-previous-data-month differences.  The
Python loop walks `sorted(data.keys())` and writes only `diff` fields
while reading only `total_allowance` fields, so the per-month updates are
independent and the loop is a map over the (unique-keyed) dict. -/
def deptDiffPass (data : CmpData) : CmpData :=
  let sm := sortedMonthsOf data
  data.map fun mb =>
    match prevOf sm mb.1 with
    | none => mb
    | some pm =>
      match findA pm data with
      | none => mb
      | some prevDepts =>
        (mb.1, mb.2.map fun de =>
          match findA de.1 prevDepts with
          | none => de
          | some pdb =>
            (de.1, { de.2 with diff := de.2.total_allowance - pdb.total_allowance }))

/-- `vertical_total` (lines 209-225); `month_total_diff` is absent until
the second diff pass. -/
structure CmpVertical where
  total_allowance : ℚ
  total_A : ℚ
  total_B : ℚ
  total_C : ℚ
  total_PRIME : ℚ
  head_count : Nat
  month_total_diff : Option ℚ
deriving DecidableEq

def emptyCmpVertical : CmpVertical := ⟨0, 0, 0, 0, 0, 0, none⟩

/-- `emp_ids_month` (lines 211-216): a set union over the month's
departments' employee buckets. -/
def monthEmpIds (mb : List (String × CmpDept)) : List String :=
  mb.foldl (fun acc de =>
    de.2.emp.foldl (fun acc2 e => listInsert acc2 e.2.emp_id) acc) []

def vertTotals (mb : List (String × CmpDept)) : CmpVertical :=
  ⟨sumBy CmpDept.total_allowance mb,
   sumBy CmpDept.dept_total_A mb,
   sumBy CmpDept.dept_total_B mb,
   sumBy CmpDept.dept_total_C mb,
   sumBy CmpDept.dept_total_PRIME mb,
   (monthEmpIds mb).length,
   none⟩

abbrev CmpDV := List (Month × (List (String × CmpDept) × CmpVertical))

def addVertical (data : CmpData) : CmpDV :=
  data.map fun mb => (mb.1, (mb.2, vertTotals mb.2))

/-- Lines 227-241: `month_total_diff` against the previous *calendar*
month, `0.0` when that month holds no data.  As with the department pass,
each month's update is independent (it reads only `total_allowance`),
so the sorted loop is a map. -/
def monthDiffPass (dv : CmpDV) : CmpDV :=
  dv.map fun mb =>
    match findA mb.1.prevCal dv with
    | some pv =>
      (mb.1, (mb.2.1,
        { mb.2.2 with
          month_total_diff := some (mb.2.2.total_allowance - pv.2.total_allowance) }))
    | none => (mb.1, (mb.2.1, { mb.2.2 with month_total_diff := some 0 }))

structure CmpHorizontal where
  total_allowance : ℚ
  head_count : Nat
deriving DecidableEq

/-- Lines 243-259: per-department totals across all months. -/
def horizontalTotals (dv : CmpDV) : List (String × CmpHorizontal) :=
  (dv.foldl (fun acc mb =>
    mb.2.1.foldl (fun a de =>
      updA de.1 ((0 : ℚ), ([] : List String))
        (fun pr => (pr.1 + de.2.total_allowance,
          de.2.emp.foldl (fun s e => listInsert s e.2.emp_id) pr.2)) a) acc) []).map
    fun p => (p.1, ⟨p.2.1, p.2.2.length⟩)

/-- A month's entry in the final result: populated departments plus
vertical total, or the `"No data found"` placeholder with zeroed vertical
totals (lines 267-283). -/
inductive CmpMonthBlock where
  | data (depts : List (String × CmpDept)) (vertical_total : CmpVertical)
  | placeholder (message : String) (vertical_total : CmpVertical)
deriving DecidableEq

structure CmpResult where
  months : List (Month × CmpMonthBlock)
  horizontal_total : List (String × CmpHorizontal)
deriving DecidableEq

/-- `all_months` (lines 261-265): every month from `start_date` to
`end_date`. -/
def cmpAllMonths (s e : Month) : List Month :=
  (List.range (e.idx + 1 - s.idx)).map fun i => Month.ofIdx (s.idx + i)

def assembleCmp (dv : CmpDV) (s e : Month) (htot : List (String × CmpHorizontal)) :
    CmpResult :=
  ⟨(cmpAllMonths s e).map fun m =>
    match findA m dv with
    | some v => (m, .data v.1 v.2)
    | none => (m, .placeholder "No data found" emptyCmpVertical),
   htot⟩

def dbMaxDurationForClient (db : DB) (client_name : String) : Option Month :=
  maxMonth? ((db.sas.filter fun sa => decide (sa.client = some client_name)).map
    (·.duration_month))

/-- Lines 36-66: range resolution (month-granular; `last_day_of_month`
stays inside `end_month`). -/
def resolveCmpRange (db : DB) (client_name : String)
    (sm em : Option Month) : Except ApiError (Month × Month) :=
  if em.isSome && sm.isNone then
    .error ⟨400, "end_month cannot be provided without start_month."⟩
  else
    match sm, em with
    | none, none =>
      match dbMaxDurationForClient db client_name with
      | none => .error ⟨404, "No records found for client " ++ client_name ++ "."⟩
      | some latest => .ok (latest, latest)
    | some s, some e =>
      if e.idx < s.idx then
        .error ⟨400, "end_month must be greater than or equal to start_month."⟩
      else .ok (s, e)
    | some s, none => .ok (s, s)
    | none, some _ =>
      .error ⟨400, "end_month cannot be provided without start_month."⟩

/-- Lines 68-80: both ends of the range are rejected when they lie after
the current calendar month. -/
def cmpFutureCheck (today : Month) (startM endM : Month) :
    Except ApiError Unit :=
  if today < startM then
    .error ⟨400, "start_month cannot be greater than current month ("
      ++ monthStr today ++ ")."⟩
  else if today < endM then
    .error ⟨400, "end_month cannot be greater than current month ("
      ++ monthStr today ++ ")."⟩
  else .ok ()

def cmpBase (db : DB) (client_name : String) (startM endM : Month)
    (am : Option String) : CmpData :=
  finalizeData (buildCmpData (cmpRowsFor db client_name startM endM am))

def cmpDV (db : DB) (client_name : String) (startM endM : Month)
    (am : Option String) : CmpDV :=
  monthDiffPass (addVertical (deptDiffPass (cmpBase db client_name startM endM am)))

/-- `client_comparison_service` (line 29), with `date.today()` explicit. -/
def client_comparison_service (today : Month) (db : DB) (client_name : String)
    (start_month end_month : Option Month) (account_manager : Option String) :
    Except ApiError CmpResult := do
  let (startM, endM) ← resolveCmpRange db client_name start_month end_month
  let _ ← cmpFutureCheck today startM endM
  let dv := cmpDV db client_name startM endM account_manager
  pure (assembleCmp dv startM endM (horizontalTotals dv))

/-! ### Gap completeness (claim C3) -/

theorem pair_forall_setA {κ β : Type} [DecidableEq κ] (P : κ × β → Prop)
    (k : κ) (v : β) (hv : P (k, v)) :
    ∀ l : List (κ × β), (∀ p ∈ l, P p) → ∀ p ∈ setA k v l, P p
  | [], _ => by
    intro p hp
    simp only [setA, List.mem_singleton] at hp
    subst hp; exact hv
  | (k', v') :: rest, hl => by
    have hv' : P (k', v') := hl _ (List.mem_cons_self _ _)
    have hrest : ∀ q ∈ rest, P q := fun q hq => hl _ (List.mem_cons_of_mem _ hq)
    by_cases h : k' = k
    · simp only [setA, if_pos h]
      intro p hp
      rcases List.mem_cons.mp hp with h1 | h1
      · subst h1; subst h; exact hv
      · exact hrest _ h1
    · simp only [setA, if_neg h]
      intro p hp
      rcases List.mem_cons.mp hp with h1 | h1
      · subst h1; exact hv'
      · exact pair_forall_setA P k v hv rest hrest p h1

/-- Every skeleton entry is the period's no-data message. -/
theorem skeleton_entries :
    ∀ (ks : List PKey) (acc : SummaryResp),
      (∀ p ∈ acc, p.2 = .message (noDataMsg p.1)) →
      ∀ p ∈ skeletonOf ks acc, p.2 = .message (noDataMsg p.1)
  | [], _, h => h
  | k :: ks, acc, h =>
    skeleton_entries ks _
      (pair_forall_setA (fun p => p.2 = .message (noDataMsg p.1)) k _ rfl acc h)

theorem keys_setA_mono {κ β : Type} [DecidableEq κ] (k : κ) (v : β) (k' : κ) :
    ∀ l : List (κ × β), k' ∈ l.map Prod.fst → k' ∈ (setA k v l).map Prod.fst
  | [], h => absurd h (by simp)
  | (k'', v'') :: rest, h => by
    simp only [List.map_cons, List.mem_cons] at h
    by_cases hk : k'' = k
    · simp only [setA, if_pos hk, List.map_cons, List.mem_cons]
      exact h
    · simp only [setA, if_neg hk, List.map_cons, List.mem_cons]
      rcases h with h1 | h1
      · exact Or.inl h1
      · exact Or.inr (keys_setA_mono k v k' rest h1)

theorem mem_keys_setA {κ β : Type} [DecidableEq κ] (k : κ) (v : β) :
    ∀ l : List (κ × β), k ∈ (setA k v l).map Prod.fst
  | [] => by simp [setA]
  | (k', v') :: rest => by
    by_cases h : k' = k
    · simp [setA, h]
    · simp only [setA, if_neg h, List.map_cons, List.mem_cons]
      exact Or.inr (mem_keys_setA k v rest)

theorem keys_skeletonOf_mono (k : PKey) :
    ∀ (ks : List PKey) (acc : SummaryResp),
      k ∈ acc.map Prod.fst → k ∈ (skeletonOf ks acc).map Prod.fst
  | [], _, h => h
  | k' :: ks, acc, h =>
    keys_skeletonOf_mono k ks _ (keys_setA_mono k' _ k acc h)

theorem mem_keys_skeletonOf (k : PKey) :
    ∀ (ks : List PKey) (acc : SummaryResp),
      k ∈ ks → k ∈ (skeletonOf ks acc).map Prod.fst
  | k' :: ks, acc, h => by
    rcases List.mem_cons.mp h with h1 | h1
    · subst h1
      exact keys_skeletonOf_mono k ks _ (mem_keys_setA k _ acc)
    · exact mem_keys_skeletonOf k ks _ h1

theorem keys_populate (quarterMode : Bool) (qmap : List (PKey × List Month)) :
    ∀ (rows : List JoinedRow) (resp : SummaryResp),
      (populateSummary quarterMode qmap resp rows).map Prod.fst = resp.map Prod.fst
  | [], _ => rfl
  | r :: rows, resp => by
    rw [populateSummary, List.foldl_cons]
    have h1 := keys_populate quarterMode qmap rows (addRow quarterMode qmap resp r)
    rw [populateSummary] at h1
    rw [h1, addRow, keys_updExisting]

theorem keys_zeroFill (p : SummaryPayload) (resp : SummaryResp) :
    (zeroFillSummary p resp).map Prod.fst = resp.map Prod.fst := by
  unfold zeroFillSummary
  cases p.clients with
  | mapping entries =>
    rw [List.map_map]
    apply List.map_congr_left
    intro kb _
    obtain ⟨k1, b⟩ := kb
    cases b <;> rfl
  | absent => rfl
  | all => rfl

theorem mem_updExisting_of_ne {κ β : Type} [DecidableEq κ] (k : κ) (f : β → β)
    (kb : κ × β) (hne : kb.1 ≠ k) :
    ∀ l : List (κ × β), kb ∈ updExisting k f l → kb ∈ l
  | (k', v) :: rest, h => by
    by_cases hk : k' = k
    · simp only [updExisting, if_pos hk] at h
      rcases List.mem_cons.mp h with h1 | h1
      · exact absurd ((congrArg Prod.fst h1).trans hk) hne
      · exact List.mem_cons_of_mem _ h1
    · simp only [updExisting, if_neg hk] at h
      rcases List.mem_cons.mp h with h1 | h1
      · exact h1 ▸ List.mem_cons_self _ _
      · exact List.mem_cons_of_mem _ (mem_updExisting_of_ne k f kb hne rest h1)

theorem populate_untouched (quarterMode : Bool) (qmap : List (PKey × List Month)) :
    ∀ (rows : List JoinedRow) (resp : SummaryResp) (kb : PKey × PeriodBlock),
      kb ∈ populateSummary quarterMode qmap resp rows →
      (∀ r ∈ rows, summaryRowKey quarterMode qmap r.duration_month ≠ kb.1) →
      kb ∈ resp
  | [], _, _, h, _ => h
  | r :: rows, resp, kb, h, hno => by
    have h1 : kb ∈ addRow quarterMode qmap resp r :=
      populate_untouched quarterMode qmap rows _ kb h
        (fun r' hr' => hno r' (List.mem_cons_of_mem _ hr'))
    exact mem_updExisting_of_ne _ _ kb
      (fun he => hno r (List.mem_cons_self _ _) he.symm) resp h1

theorem zeroFill_message_mem (p : SummaryPayload) (resp : SummaryResp)
    (kb : PKey × PeriodBlock) (h : kb ∈ zeroFillSummary p resp) :
    ∃ kb0 ∈ resp, kb0.1 = kb.1 ∧ ∀ s, kb0.2 = .message s → kb.2 = .message s := by
  unfold zeroFillSummary at h
  cases hc : p.clients with
  | mapping entries =>
    rw [hc] at h
    rcases List.mem_map.mp h with ⟨kb0, hkb0, hmap⟩
    refine ⟨kb0, hkb0, ?_, ?_⟩
    · cases hb : kb0.2 <;> rw [hb] at hmap <;> simp [← hmap]
    · intro s hs
      rw [hs] at hmap
      simp [← hmap]
  | absent =>
    rw [hc] at h
    exact ⟨kb, h, rfl, fun s hs => hs⟩
  | all =>
    rw [hc] at h
    exact ⟨kb, h, rfl, fun s hs => hs⟩

theorem keys_assembleCmp (dv : CmpDV) (s e : Month)
    (htot : List (String × CmpHorizontal)) :
    (assembleCmp dv s e htot).months.map Prod.fst = cmpAllMonths s e := by
  unfold assembleCmp
  generalize cmpAllMonths s e = l
  induction l with
  | nil => rfl
  | cons m ms ih =>
    simp only [List.map_cons, List.cons.injEq]
    refine ⟨?_, by simpa using ih⟩
    cases findA m dv <;> rfl

/-- C3 (amended): every resolved period appears as a top-level key of the
output even with zero matching rows.  In `client_summary_service` the
response keys are exactly the skeleton keys (one per resolved period) and
a period no fetched row maps to keeps its `"No data found for ..."`
message placeholder (which carries no totals).  In
`client_comparison_service` every month of the resolved range appears,
and a month absent from the aggregated data appears as the
`"No data found"` placeholder with zeroed vertical totals. -/
theorem gap_completeness :
    (∀ (today : Month) (db : DB) (p : SummaryPayload) (rp : ResolvedPeriods)
      (resp : SummaryResp),
      resolveSummaryPeriods today db p = .ok rp →
      client_summary_service today db p = .ok resp →
      resp.map Prod.fst
          = (summarySkeleton rp (!p.selected_quarters.isEmpty)).map Prod.fst ∧
      (p.selected_quarters = [] →
        ∀ m ∈ rp.months, PKey.month m ∈ resp.map Prod.fst) ∧
      (∀ kb ∈ resp,
        (∀ r ∈ summaryRows db rp (!p.selected_quarters.isEmpty),
          summaryRowKey (!p.selected_quarters.isEmpty) rp.quarter_map
            r.duration_month ≠ kb.1) →
        kb.2 = .message (noDataMsg kb.1))) ∧
    (∀ (today : Month) (db : DB) (cn : String) (sm em : Option Month)
      (am : Option String) (startM endM : Month) (r : CmpResult),
      resolveCmpRange db cn sm em = .ok (startM, endM) →
      client_comparison_service today db cn sm em am = .ok r →
      r.months.map Prod.fst = cmpAllMonths startM endM ∧
      ∀ m ∈ cmpAllMonths startM endM,
        findA m (cmpDV db cn startM endM am) = none →
          (m, CmpMonthBlock.placeholder "No data found" emptyCmpVertical)
            ∈ r.months) := by
  constructor
  · intro today db p rp resp hres h
    unfold client_summary_service at h
    rw [hres] at h
    simp only [Except.map] at h
    have hpipe : summaryPipeline db p rp = resp := by injection h
    subst hpipe
    unfold summaryPipeline
    refine ⟨?_, ?_, ?_⟩
    · rw [keys_zeroFill, keys_populate]
    · intro hq m hm
      rw [keys_zeroFill, keys_populate]
      unfold summarySkeleton
      simp only [hq, List.isEmpty_nil, Bool.not_true, Bool.false_eq_true, if_false]
      exact mem_keys_skeletonOf (PKey.month m) _ []
        (List.mem_map.mpr ⟨m, hm, rfl⟩)
    · intro kb hkb hno
      rcases zeroFill_message_mem p _ kb hkb with ⟨kb0, hkb0, hkey, hmsg⟩
      have hkb0s : kb0 ∈ summarySkeleton rp (!p.selected_quarters.isEmpty) :=
        populate_untouched _ _ _ _ kb0 hkb0
          (fun r hr => by rw [hkey]; exact hno r hr)
      have : kb0.2 = .message (noDataMsg kb0.1) := by
        unfold summarySkeleton at hkb0s
        by_cases hq : (!p.selected_quarters.isEmpty) = true
        · rw [if_pos hq] at hkb0s
          exact skeleton_entries _ [] (by simp) kb0 hkb0s
        · rw [if_neg hq] at hkb0s
          exact skeleton_entries _ [] (by simp) kb0 hkb0s
      rw [hkey] at this
      exact hmsg _ this
  · intro today db cn sm em am startM endM r hres h
    unfold client_comparison_service at h
    rw [hres] at h
    simp only [Except.bind, bind] at h
    cases hfc : cmpFutureCheck today startM endM with
    | error e => rw [hfc] at h; exact absurd h (by simp)
    | ok u =>
      rw [hfc] at h
      simp only [pure, Except.pure] at h
      have hr : assembleCmp (cmpDV db cn startM endM am) startM endM
          (horizontalTotals (cmpDV db cn startM endM am)) = r := by
        injection h
      subst hr
      constructor
      · exact keys_assembleCmp _ _ _ _
      · intro m hm hnone
        unfold assembleCmp
        simp only []
        refine List.mem_map.mpr ⟨m, hm, ?_⟩
        rw [hnone]

def dbEmpty : DB := ⟨[], [], []⟩

/-- Range 2024-01 .. 2024-03 as an explicit `start_month`/`end_month`. -/
def pRangeQ1 : SummaryPayload :=
  ⟨none, [], [], some ⟨2024, 1⟩, some ⟨2024, 3⟩, .absent⟩

/-- C3 (counterexample): with no rows at all and the range
2024-01..2024-03, the summary output has exactly the three period keys —
but each placeholder is a bare `{"message": ...}` node: it carries the
"no data found" message and *no* totals fields at all, so the claim's
"placeholder ... and zeroed totals" does not hold for
`client_summary_service` (zeroed totals exist only in the comparison
service's placeholders). -/
theorem summary_gap_placeholder_cx :
    client_summary_service todayX dbEmpty pRangeQ1 = .ok
      [(PKey.month ⟨2024, 1⟩, .message "No data found for 2024-01"),
       (PKey.month ⟨2024, 2⟩, .message "No data found for 2024-02"),
       (PKey.month ⟨2024, 3⟩, .message "No data found for 2024-03")] := by
  decide

def rpGap : ResolvedPeriods :=
  (resolveSummaryPeriods todayX dbEmpty pRangeQ1).toOption.getD ⟨[], [], []⟩

def respGap : SummaryResp :=
  (client_summary_service todayX dbEmpty pRangeQ1).toOption.getD []

def cmpGapResp : CmpResult :=
  (client_comparison_service todayX dbEmpty "Acme"
    (some ⟨2024, 1⟩) (some ⟨2024, 3⟩) none).toOption.getD ⟨[], []⟩

theorem gap_completeness_witness :
    (resolveSummaryPeriods todayX dbEmpty pRangeQ1 = .ok rpGap ∧
     client_summary_service todayX dbEmpty pRangeQ1 = .ok respGap ∧
     (pRangeQ1.selected_quarters = [] →
       ∀ m ∈ rpGap.months, PKey.month m ∈ respGap.map Prod.fst)) ∧
    (resolveCmpRange dbEmpty "Acme" (some ⟨2024, 1⟩) (some ⟨2024, 3⟩)
        = .ok (⟨2024, 1⟩, ⟨2024, 3⟩) ∧
     client_comparison_service todayX dbEmpty "Acme"
        (some ⟨2024, 1⟩) (some ⟨2024, 3⟩) none = .ok cmpGapResp ∧
     cmpGapResp.months.map Prod.fst = cmpAllMonths ⟨2024, 1⟩ ⟨2024, 3⟩) :=
  ⟨⟨by decide, by decide,
    (gap_completeness.1 todayX dbEmpty pRangeQ1 rpGap respGap
      (by decide) (by decide)).2.1⟩,
   ⟨by decide, by decide,
    (gap_completeness.2 todayX dbEmpty "Acme" (some ⟨2024, 1⟩) (some ⟨2024, 3⟩)
      none ⟨2024, 1⟩ ⟨2024, 3⟩ cmpGapResp (by decide) (by decide)).1⟩⟩

/-! ### Delta calculation (claim C5) -/

/-- All `diff` fields are still at their initial `0.0`. -/
def DiffsZero (data : CmpData) : Prop :=
  ∀ mb ∈ data, ∀ de ∈ mb.2, de.2.diff = 0

theorem stepCmpDept_diff (r : CmpRow) (d : CmpDept) :
    (stepCmpDept r d).diff = d.diff := by
  cases hst : r.shift_type <;> simp [stepCmpDept, CmpDept.typeAdd, hst]

theorem diffsZero_addCmpRow (data : CmpData) (r : CmpRow) :
    DiffsZero data → DiffsZero (addCmpRow data r) := by
  intro h
  have hP : ∀ (v : List (String × CmpDept)), (∀ de ∈ v, de.2.diff = 0) →
      ∀ de ∈ updA (cmpDeptKey r) emptyCmpDept (stepCmpDept r) v, de.2.diff = 0 := by
    intro v hv
    refine forall_updA (fun d => d.diff = 0) (cmpDeptKey r) emptyCmpDept
      (stepCmpDept r) ?_ ?_ v hv
    · intro d hd
      show (stepCmpDept r d).diff = 0
      rw [stepCmpDept_diff]; exact hd
    · show (stepCmpDept r emptyCmpDept).diff = 0
      rw [stepCmpDept_diff]; rfl
  exact forall_updA (fun v : List (String × CmpDept) => ∀ de ∈ v, de.2.diff = 0)
    r.duration_month []
    (fun mbv => updA (cmpDeptKey r) emptyCmpDept (stepCmpDept r) mbv)
    hP (hP [] (by simp)) data h

theorem diffsZero_build : ∀ (rows : List CmpRow) (data : CmpData),
    DiffsZero data → DiffsZero (rows.foldl addCmpRow data)
  | [], _, h => h
  | r :: rows, data, h =>
    diffsZero_build rows _ (diffsZero_addCmpRow data r h)

theorem diffsZero_finalize (data : CmpData) (h : DiffsZero data) :
    DiffsZero (finalizeData data) := by
  intro mb hmb de hde
  rcases List.mem_map.mp hmb with ⟨mb0, hmb0, hmap⟩
  subst hmap
  rcases List.mem_map.mp hde with ⟨de0, hde0, hmap2⟩
  subst hmap2
  exact h mb0 hmb0 de0 hde0

theorem diffsZero_cmpBase (db : DB) (cn : String) (s e : Month)
    (am : Option String) : DiffsZero (cmpBase db cn s e am) :=
  diffsZero_finalize _ (diffsZero_build _ [] (by intro mb hmb; simp at hmb))

theorem findA_some_mem_keys {κ β : Type} [DecidableEq κ] (k : κ) (v : β) :
    ∀ l : List (κ × β), findA k l = some v → k ∈ l.map Prod.fst
  | (k', v') :: rest, h => by
    by_cases hk : k' = k
    · simp [hk]
    · simp only [findA, if_neg hk] at h
      simp only [List.map_cons, List.mem_cons]
      exact Or.inr (findA_some_mem_keys k v rest h)

theorem Month.le_iff (a b : Month) : a ≤ b ↔ a.idx ≤ b.idx := Iff.rfl

theorem mem_insertSorted (x m : Month) :
    ∀ l : List Month, x ∈ insertSorted m l ↔ x = m ∨ x ∈ l
  | [] => by simp [insertSorted]
  | y :: ys => by
    by_cases h : m < y
    · simp [insertSorted, h]
    · simp only [insertSorted, if_neg h, List.mem_cons, mem_insertSorted x m ys]
      tauto

theorem pairwise_insertSorted (m : Month) :
    ∀ l : List Month, l.Pairwise (fun a b => decide (a ≤ b) = true) →
      (insertSorted m l).Pairwise (fun a b => decide (a ≤ b) = true)
  | [], _ => by simp [insertSorted]
  | x :: xs, h => by
    rcases List.pairwise_cons.mp h with ⟨hx, hxs⟩
    by_cases hlt : m < x
    · simp only [insertSorted, if_pos hlt]
      refine List.pairwise_cons.mpr ⟨?_, h⟩
      intro b hb
      rcases List.mem_cons.mp hb with h1 | h1
      · subst h1
        exact decide_eq_true ((Month.le_iff m b).mpr (Nat.le_of_lt hlt))
      · have hxb : x ≤ b := of_decide_eq_true (hx b h1)
        exact decide_eq_true ((Month.le_iff m b).mpr
          (Nat.le_trans (Nat.le_of_lt hlt) ((Month.le_iff x b).mp hxb)))
    · simp only [insertSorted, if_neg hlt]
      refine List.pairwise_cons.mpr ⟨?_, pairwise_insertSorted m xs hxs⟩
      intro b hb
      rcases (mem_insertSorted b m xs).mp hb with h1 | h1
      · subst h1
        exact decide_eq_true ((Month.le_iff x b).mpr (Nat.le_of_not_lt hlt))
      · exact hx b h1

theorem sortMonths_pairwise :
    ∀ l : List Month, (sortMonths l).Pairwise (fun a b => decide (a ≤ b) = true)
  | [] => List.Pairwise.nil
  | m :: rest => pairwise_insertSorted m _ (sortMonths_pairwise rest)

theorem mem_sortMonths (x : Month) :
    ∀ l : List Month, x ∈ sortMonths l ↔ x ∈ l
  | [] => Iff.rfl
  | m :: rest => by
    simp only [sortMonths, mem_insertSorted, mem_sortMonths x rest, List.mem_cons]

theorem sortedMonthsOf_pairwise (data : CmpData) :
    (sortedMonthsOf data).Pairwise (fun a b => decide (a ≤ b) = true) :=
  sortMonths_pairwise _

theorem mem_sortedMonthsOf (data : CmpData) (m : Month) :
    m ∈ data.map Prod.fst → m ∈ sortedMonthsOf data := by
  intro h
  unfold sortedMonthsOf
  exact (mem_sortMonths m _).mpr h

/-- A strictly minimal month is the head of the sorted list, so it has no
predecessor. -/
theorem prevOf_none_of_min (m : Month) :
    ∀ sm : List Month, sm.Pairwise (fun a b => decide (a ≤ b) = true) →
      m ∈ sm → (∀ m' ∈ sm, m' ≠ m → m < m') → prevOf sm m = none := by
  intro sm hsort hmem hmin
  cases sm with
  | nil => rfl
  | cons h rest =>
    by_cases hh : h = m
    · simp [prevOf, hh]
    · exfalso
      have hm : m ∈ rest := by
        rcases List.mem_cons.mp hmem with h1 | h1
        · exact absurd h1.symm hh
        · exact h1
      have hle : h ≤ m := of_decide_eq_true ((List.pairwise_cons.mp hsort).1 m hm)
      have hlt : m < h := hmin h (List.mem_cons_self _ _) hh
      exact absurd (Nat.lt_of_lt_of_le hlt hle) (Nat.lt_irrefl _)

theorem keys_monthDiffPass (dv0 : CmpDV) :
    ∀ l : List (Month × (List (String × CmpDept) × CmpVertical)),
      (l.map fun mb =>
        match findA mb.1.prevCal dv0 with
        | some pv =>
          (mb.1, (mb.2.1,
            { mb.2.2 with
              month_total_diff := some (mb.2.2.total_allowance - pv.2.total_allowance) }))
        | none => (mb.1, (mb.2.1, { mb.2.2 with month_total_diff := some 0 }))).map
          Prod.fst = l.map Prod.fst
  | [] => rfl
  | mb :: rest => by
    simp only [List.map_cons, List.cons.injEq]
    refine ⟨?_, keys_monthDiffPass dv0 rest⟩
    cases findA mb.1.prevCal dv0 <;> rfl

theorem Month.prevCal_lt (m : Month) (hm : 1 ≤ m.month) (hy : 1 ≤ m.year) :
    m.prevCal < m := by
  unfold Month.prevCal
  by_cases h : 1 < m.month
  · simp only [if_pos h]
    show m.year * 12 + (m.month - 1) < m.year * 12 + m.month
    omega
  · simp only [if_neg h]
    show (m.year - 1) * 12 + 12 < m.year * 12 + m.month
    omega

/-- C5 (amended): in `client_comparison_service`, deltas are computed on
`total_allowance` only, but against two different baselines.  Department
`diff`: against the department's bucket in the *previous month of the
sorted data sequence* (`sorted_months[idx-1]`); departments of the first
data month, and departments absent from that previous month, keep their
explicit initial `0.0`.  Period total `month_total_diff`: against the
previous *calendar* month, and explicitly `0.0` whenever that calendar
month has no data — not the difference against the previous period of the
ordered sequence; the first data month therefore gets an explicit `0.0`
at both levels. -/
theorem cmp_delta_semantics :
    (∀ (db : DB) (cn : String) (s e : Month) (am : Option String),
      ∀ mb ∈ deptDiffPass (cmpBase db cn s e am),
        (prevOf (sortedMonthsOf (cmpBase db cn s e am)) mb.1 = none →
          ∀ de ∈ mb.2, de.2.diff = 0) ∧
        (∀ pm, prevOf (sortedMonthsOf (cmpBase db cn s e am)) mb.1 = some pm →
          ∀ pDepts, findA pm (cmpBase db cn s e am) = some pDepts →
            ∀ de ∈ mb.2,
              (∀ pdb, findA de.1 pDepts = some pdb →
                de.2.diff = de.2.total_allowance - pdb.total_allowance) ∧
              (findA de.1 pDepts = none → de.2.diff = 0))) ∧
    (∀ (db : DB) (cn : String) (s e : Month) (am : Option String),
      ∀ mb ∈ cmpDV db cn s e am,
        (∀ pv, findA mb.1.prevCal
            (addVertical (deptDiffPass (cmpBase db cn s e am))) = some pv →
          mb.2.2.month_total_diff
            = some (mb.2.2.total_allowance - pv.2.total_allowance)) ∧
        (findA mb.1.prevCal
            (addVertical (deptDiffPass (cmpBase db cn s e am))) = none →
          mb.2.2.month_total_diff = some 0)) ∧
    (∀ (db : DB) (cn : String) (s e : Month) (am : Option String),
      ∀ mb ∈ cmpDV db cn s e am, 1 ≤ mb.1.month → 1 ≤ mb.1.year →
        (∀ m' ∈ (cmpDV db cn s e am).map Prod.fst, mb.1 ≤ m') →
        mb.2.2.month_total_diff = some 0) ∧
    (∀ (db : DB) (cn : String) (s e : Month) (am : Option String),
      ∀ mb ∈ deptDiffPass (cmpBase db cn s e am),
        (∀ m' ∈ sortedMonthsOf (cmpBase db cn s e am), m' ≠ mb.1 → mb.1 < m') →
        ∀ de ∈ mb.2, de.2.diff = 0) := by
  have hA : ∀ (db : DB) (cn : String) (s e : Month) (am : Option String),
      ∀ mb ∈ deptDiffPass (cmpBase db cn s e am),
        (prevOf (sortedMonthsOf (cmpBase db cn s e am)) mb.1 = none →
          ∀ de ∈ mb.2, de.2.diff = 0) ∧
        (∀ pm, prevOf (sortedMonthsOf (cmpBase db cn s e am)) mb.1 = some pm →
          ∀ pDepts, findA pm (cmpBase db cn s e am) = some pDepts →
            ∀ de ∈ mb.2,
              (∀ pdb, findA de.1 pDepts = some pdb →
                de.2.diff = de.2.total_allowance - pdb.total_allowance) ∧
              (findA de.1 pDepts = none → de.2.diff = 0)) := by
    intro db cn s e am mb hmb
    have hz := diffsZero_cmpBase db cn s e am
    unfold deptDiffPass at hmb
    rcases List.mem_map.mp hmb with ⟨mb0, hmb0, heq⟩
    cases hprev : prevOf (sortedMonthsOf (cmpBase db cn s e am)) mb0.1 with
    | none =>
      rw [hprev] at heq
      simp only [] at heq
      subst heq
      constructor
      · intro _
        exact hz mb0 hmb0
      · intro pm hpm
        rw [hprev] at hpm
        exact absurd hpm (by simp)
    | some pm0 =>
      rw [hprev] at heq
      simp only [] at heq
      cases hfind : findA pm0 (cmpBase db cn s e am) with
      | none =>
        rw [hfind] at heq
        simp only [] at heq
        subst heq
        constructor
        · intro h0
          rw [hprev] at h0
          exact absurd h0 (by simp)
        · intro pm hpm pD hfD de hde
          rw [hprev] at hpm
          have hpm2 : pm0 = pm := Option.some.inj hpm
          rw [← hpm2, hfind] at hfD
          exact absurd hfD (by simp)
      | some prevD =>
        rw [hfind] at heq
        simp only [] at heq
        subst heq
        constructor
        · intro h0
          simp only [] at h0
          rw [hprev] at h0
          exact absurd h0 (by simp)
        · intro pm hpm pD hfD de hde
          simp only [] at hpm hde
          rw [hprev] at hpm
          have hpm2 : pm0 = pm := Option.some.inj hpm
          subst hpm2
          rw [hfind] at hfD
          have hfD2 : prevD = pD := Option.some.inj hfD
          subst hfD2
          rcases List.mem_map.mp hde with ⟨de0, hde0, heq2⟩
          cases hfe : findA de0.1 prevD with
          | none =>
            rw [hfe] at heq2
            simp only [] at heq2
            subst heq2
            constructor
            · intro pdb hpdb
              rw [hfe] at hpdb
              exact absurd hpdb (by simp)
            · intro _
              exact hz mb0 hmb0 de0 hde0
          | some pdb0 =>
            rw [hfe] at heq2
            simp only [] at heq2
            subst heq2
            constructor
            · intro pdb hpdb
              simp only [] at hpdb
              rw [hfe] at hpdb
              have hpdb2 : pdb0 = pdb := Option.some.inj hpdb
              subst hpdb2
              rfl
            · intro h0
              simp only [] at h0
              rw [hfe] at h0
              exact absurd h0 (by simp)
  have hB : ∀ (db : DB) (cn : String) (s e : Month) (am : Option String),
      ∀ mb ∈ cmpDV db cn s e am,
        (∀ pv, findA mb.1.prevCal
            (addVertical (deptDiffPass (cmpBase db cn s e am))) = some pv →
          mb.2.2.month_total_diff
            = some (mb.2.2.total_allowance - pv.2.total_allowance)) ∧
        (findA mb.1.prevCal
            (addVertical (deptDiffPass (cmpBase db cn s e am))) = none →
          mb.2.2.month_total_diff = some 0) := by
    intro db cn s e am mb hmb
    unfold cmpDV monthDiffPass at hmb
    rcases List.mem_map.mp hmb with ⟨mb0, hmb0, heq⟩
    cases hf : findA mb0.1.prevCal
        (addVertical (deptDiffPass (cmpBase db cn s e am))) with
    | some pv0 =>
      rw [hf] at heq
      simp only [] at heq
      subst heq
      constructor
      · intro pv hpv
        simp only [] at hpv ⊢
        rw [hf] at hpv
        have hpv2 : pv0 = pv := Option.some.inj hpv
        subst hpv2
        rfl
      · intro h0
        simp only [] at h0
        rw [hf] at h0
        exact absurd h0 (by simp)
    | none =>
      rw [hf] at heq
      simp only [] at heq
      subst heq
      constructor
      · intro pv hpv
        simp only [] at hpv
        rw [hf] at hpv
        exact absurd hpv (by simp)
      · intro _
        rfl
  have hC : ∀ (db : DB) (cn : String) (s e : Month) (am : Option String),
      ∀ mb ∈ cmpDV db cn s e am, 1 ≤ mb.1.month → 1 ≤ mb.1.year →
        (∀ m2 ∈ (cmpDV db cn s e am).map Prod.fst, mb.1 ≤ m2) →
        mb.2.2.month_total_diff = some 0 := by
    intro db cn s e am mb hmb h1 hy hmin
    have hkeys : (cmpDV db cn s e am).map Prod.fst
        = (addVertical (deptDiffPass (cmpBase db cn s e am))).map Prod.fst := by
      unfold cmpDV monthDiffPass
      exact keys_monthDiffPass _ _
    cases hf : findA mb.1.prevCal
        (addVertical (deptDiffPass (cmpBase db cn s e am))) with
    | some pv =>
      exfalso
      have hmem := findA_some_mem_keys mb.1.prevCal pv _ hf
      have hmem2 : mb.1.prevCal ∈ (cmpDV db cn s e am).map Prod.fst := by
        rw [hkeys]; exact hmem
      have hle : mb.1 ≤ mb.1.prevCal := hmin _ hmem2
      have hlt : mb.1.prevCal < mb.1 := Month.prevCal_lt mb.1 h1 hy
      exact absurd (Nat.lt_of_lt_of_le hlt hle) (Nat.lt_irrefl _)
    | none => exact (hB db cn s e am mb hmb).2 hf
  have hD : ∀ (db : DB) (cn : String) (s e : Month) (am : Option String),
      ∀ mb ∈ deptDiffPass (cmpBase db cn s e am),
        (∀ m2 ∈ sortedMonthsOf (cmpBase db cn s e am), m2 ≠ mb.1 → mb.1 < m2) →
        ∀ de ∈ mb.2, de.2.diff = 0 := by
    intro db cn s e am mb hmb hmin de hde
    have hfst : mb.1 ∈ (cmpBase db cn s e am).map Prod.fst := by
      unfold deptDiffPass at hmb
      rcases List.mem_map.mp hmb with ⟨mb0, hmb0, heq⟩
      have hfst2 : mb.1 = mb0.1 := by
        subst heq
        cases prevOf (sortedMonthsOf (cmpBase db cn s e am)) mb0.1 with
        | none => rfl
        | some pm =>
          simp only []
          cases findA pm (cmpBase db cn s e am) <;> rfl
      rw [hfst2]
      exact List.mem_map.mpr ⟨mb0, hmb0, rfl⟩
    have hsm : mb.1 ∈ sortedMonthsOf (cmpBase db cn s e am) :=
      mem_sortedMonthsOf _ _ hfst
    have hnone : prevOf (sortedMonthsOf (cmpBase db cn s e am)) mb.1 = none :=
      prevOf_none_of_min _ _ (sortedMonthsOf_pairwise _) hsm hmin
    exact (hA db cn s e am mb hmb).1 hnone de hde
  exact ⟨hA, hB, hC, hD⟩

/-- Client Acme has data in 2024-01 (total 100) and 2024-03 (total 200)
but none in 2024-02. -/
def dbC5gap : DB :=
  ⟨[⟨1, "E1", "A", some "IT", some "Acme", none, ⟨2024, 1⟩, ⟨2024, 2⟩⟩,
    ⟨2, "E1", "A", some "IT", some "Acme", none, ⟨2024, 3⟩, ⟨2024, 4⟩⟩],
   [⟨1, .A, 1⟩, ⟨2, .A, 2⟩],
   [⟨.A, 100, 2024⟩]⟩

def cmpC5resp : CmpResult :=
  (client_comparison_service todayX dbC5gap "Acme"
    (some ⟨2024, 1⟩) (some ⟨2024, 3⟩) none).toOption.getD ⟨[], []⟩

def vertAt (r : CmpResult) (m : Month) : CmpVertical :=
  match findA m r.months with
  | some (.data _ v) => v
  | some (.placeholder _ v) => v
  | none => emptyCmpVertical

attribute [local semireducible] Rat.mul Rat.add Rat.sub Rat.inv in
/-- C5 (counterexample): with data months 2024-01 (total 100) and 2024-03
(total 200) and a gap at 2024-02, the immediately preceding period of
2024-03 in the ordered sequence is 2024-01, so the claim demands
`month_total_diff = 200 - 100`; the code stores `0.0` because the
previous *calendar* month 2024-02 holds no data. -/
theorem cmp_delta_gap_cx :
    (vertAt cmpC5resp ⟨2024, 1⟩).total_allowance = 100 ∧
    (vertAt cmpC5resp ⟨2024, 3⟩).total_allowance = 200 ∧
    (vertAt cmpC5resp ⟨2024, 3⟩).month_total_diff = some 0 ∧
    (vertAt cmpC5resp ⟨2024, 3⟩).month_total_diff ≠
      some ((vertAt cmpC5resp ⟨2024, 3⟩).total_allowance
        - (vertAt cmpC5resp ⟨2024, 1⟩).total_allowance) := by
  decide

def cmpC5dv : CmpDV := cmpDV dbC5gap "Acme" ⟨2024, 1⟩ ⟨2024, 3⟩ none

def cmpC5mb1 : Month × (List (String × CmpDept) × CmpVertical) :=
  cmpC5dv.getD 0 (⟨0, 0⟩, ([], emptyCmpVertical))

attribute [local semireducible] Rat.mul Rat.add Rat.sub Rat.inv in
theorem cmp_delta_semantics_witness :
    (cmpC5mb1 ∈ cmpC5dv ∧ 1 ≤ cmpC5mb1.1.month ∧ 1 ≤ cmpC5mb1.1.year ∧
      (∀ m2 ∈ cmpC5dv.map Prod.fst, cmpC5mb1.1 ≤ m2)) ∧
    cmpC5mb1.2.2.month_total_diff = some 0 :=
  ⟨⟨by decide, by decide, by decide, by decide⟩,
   cmp_delta_semantics.2.2.1 dbC5gap "Acme" ⟨2024, 1⟩ ⟨2024, 3⟩ none cmpC5mb1
     (by decide) (by decide) (by decide) (by decide)⟩

/-! ### Filter zero-fill (claim C4) -/

theorem findA_updA_self {κ β : Type} [DecidableEq κ] (k : κ) (d : β) (f : β → β) :
    ∀ l : List (κ × β), findA k (updA k d f l) = some (f ((findA k l).getD d))
  | [] => by simp [updA, findA]
  | (k', v) :: rest => by
    by_cases h : k' = k
    · simp [updA, findA, h]
    · simp [updA, findA, h, findA_updA_self k d f rest]

theorem findA_updA_ne {κ β : Type} [DecidableEq κ] (k k' : κ) (d : β) (f : β → β)
    (hne : k ≠ k') :
    ∀ l : List (κ × β), findA k' (updA k d f l) = findA k' l
  | [] => by simp [updA, findA, hne]
  | (k'', v) :: rest => by
    by_cases h : k'' = k
    · have h2 : ¬ k'' = k' := fun e => hne (h.symm.trans e)
      simp [updA, findA, h, h2, hne]
    · by_cases h' : k'' = k'
      · have h2 : ¬ k' = k := fun e => hne e.symm
        simp [updA, findA, h, h', h2]
      · simp [updA, findA, h, h', findA_updA_ne k k' d f hne rest]

theorem findA_append {κ β : Type} [DecidableEq κ] (k : κ) (l₂ : List (κ × β)) :
    ∀ l₁ : List (κ × β), findA k (l₁ ++ l₂)
      = match findA k l₁ with
        | some v => some v
        | none => findA k l₂
  | [] => by simp [findA]
  | (k', v) :: rest => by
    by_cases h : k' = k
    · simp [findA, h]
    · simp [findA, h, findA_append k l₂ rest]

theorem zfDepts_mono (cname : String) (k : PKey) (d0 : String) :
    ∀ (ds : List String) (l : List (String × DeptBlock)),
      (findA d0 l).isSome → (findA d0 (zfDepts cname k ds l)).isSome
  | [], _, h => h
  | d :: ds, l, h => by
    by_cases hf : (findA d l).isSome
    · simp only [zfDepts, if_pos hf]
      exact zfDepts_mono cname k d0 ds l h
    · simp only [zfDepts, if_neg hf]
      refine zfDepts_mono cname k d0 ds _ ?_
      rw [findA_append]
      cases hd0 : findA d0 l with
      | some v => simp
      | none => rw [hd0] at h; simp at h

theorem zfDepts_spec (cname : String) (k : PKey) :
    ∀ (ds : List String) (l : List (String × DeptBlock)),
      ∀ d ∈ ds, (findA d (zfDepts cname k ds l)).isSome
  | d0 :: ds, l, d, hd => by
    rcases List.mem_cons.mp hd with h1 | h1
    · subst h1
      by_cases hf : (findA d l).isSome
      · simp only [zfDepts, if_pos hf]
        exact zfDepts_mono cname k d ds l hf
      · simp only [zfDepts, if_neg hf]
        refine zfDepts_mono cname k d ds _ ?_
        rw [findA_append]
        cases hd0 : findA d l with
        | some v => simp
        | none => simp [findA]
    · by_cases hf : (findA d0 l).isSome
      · simp only [zfDepts, if_pos hf]
        exact zfDepts_spec cname k ds l d h1
      · simp only [zfDepts, if_neg hf]
        exact zfDepts_spec cname k ds _ d h1

theorem zfClients_mono (k : PKey) :
    ∀ (es : List (String × List String)) (cs : List (String × ClientBlock))
      (c : String) (cb : ClientBlock), findA c cs = some cb →
      ∃ cb', findA c (zfClients k es cs) = some cb' ∧
        ∀ d0, (findA d0 cb.departments).isSome → (findA d0 cb'.departments).isSome
  | [], cs, c, cb, h => ⟨cb, h, fun _ hd => hd⟩
  | e :: es, cs, c, cb, h => by
    by_cases hc : e.1 = c
    · subst hc
      have hstep : findA e.1
          (updA e.1 emptyClientBlock
            (fun cb => { cb with departments := zfDepts e.1 k e.2 cb.departments }) cs)
          = some { cb with departments := zfDepts e.1 k e.2 cb.departments } := by
        rw [findA_updA_self, h]
        rfl
      rcases zfClients_mono k es _ e.1 _ hstep with ⟨cb', hcb', hmono⟩
      exact ⟨cb', hcb', fun d0 hd0 =>
        hmono d0 (zfDepts_mono e.1 k d0 e.2 cb.departments hd0)⟩
    · have hstep : findA c
          (updA e.1 emptyClientBlock
            (fun cb => { cb with departments := zfDepts e.1 k e.2 cb.departments }) cs)
          = some cb := by
        rw [findA_updA_ne e.1 c _ _ hc, h]
      exact zfClients_mono k es _ c cb hstep

theorem zfClients_spec (k : PKey) :
    ∀ (es : List (String × List String)) (cs : List (String × ClientBlock)),
      ∀ ent ∈ es, ∃ cb, findA ent.1 (zfClients k es cs) = some cb ∧
        ∀ d ∈ ent.2, (findA d cb.departments).isSome
  | e :: es, cs, ent, hent => by
    rcases List.mem_cons.mp hent with h1 | h1
    · subst h1
      have hstep : findA ent.1
          (updA ent.1 emptyClientBlock
            (fun cb => { cb with departments := zfDepts ent.1 k ent.2 cb.departments }) cs)
          = some { (findA ent.1 cs).getD emptyClientBlock with
              departments :=
                zfDepts ent.1 k ent.2 ((findA ent.1 cs).getD emptyClientBlock).departments } := by
        rw [findA_updA_self]
      rcases zfClients_mono k es _ ent.1 _ hstep with ⟨cb', hcb', hmono⟩
      refine ⟨cb', hcb', fun d hd => hmono d ?_⟩
      exact zfDepts_spec ent.1 k ent.2 _ d hd
    · exact zfClients_spec k es _ ent h1

/-- Employee leaves of one period block. -/
def blockEmployees : PeriodBlock → List EmpBlock
  | .message _ => []
  | .data cs _ => cs.flatMap fun c => c.2.departments.flatMap fun d => d.2.employees

/-- All employee leaves of a response. -/
def allEmployees (resp : SummaryResp) : List EmpBlock :=
  resp.flatMap fun kb => blockEmployees kb.2

theorem flat_updA {κ β γ : Type} [DecidableEq κ] (g : β → List γ) (k : κ)
    (d : β) (f : β → β) (hf : ∀ v, g (f v) = g v) (hd : g (f d) = []) :
    ∀ l : List (κ × β),
      (updA k d f l).flatMap (fun p => g p.2) = l.flatMap (fun p => g p.2)
  | [] => by simp [updA, hd]
  | (k', v) :: rest => by
    by_cases h : k' = k
    · simp [updA, h, hf]
    · simp [updA, h, flat_updA g k d f hf hd rest]

theorem zfDepts_employees (cname : String) (k : PKey) :
    ∀ (ds : List String) (l : List (String × DeptBlock)),
      (zfDepts cname k ds l).flatMap (fun d => d.2.employees)
        = l.flatMap (fun d => d.2.employees)
  | [], _ => rfl
  | d :: ds, l => by
    by_cases hf : (findA d l).isSome
    · simp only [zfDepts, if_pos hf, zfDepts_employees cname k ds l]
    · simp only [zfDepts, if_neg hf, zfDepts_employees cname k ds _]
      simp [placeholderDept, emptyDeptBlock]

theorem zfClients_employees (k : PKey) :
    ∀ (es : List (String × List String)) (cs : List (String × ClientBlock)),
      (zfClients k es cs).flatMap (fun c => c.2.departments.flatMap fun d => d.2.employees)
        = cs.flatMap (fun c => c.2.departments.flatMap fun d => d.2.employees)
  | [], _ => rfl
  | e :: es, cs => by
    rw [zfClients, zfClients_employees k es _]
    exact flat_updA (fun cb => cb.departments.flatMap fun d => d.2.employees)
      e.1 emptyClientBlock
      (fun cb => { cb with departments := zfDepts e.1 k e.2 cb.departments })
      (fun v => zfDepts_employees e.1 k e.2 v.departments)
      (by exact (zfDepts_employees e.1 k e.2 ([] : List (String × DeptBlock))).trans rfl) cs

theorem allEmployees_zeroFill (p : SummaryPayload) (resp : SummaryResp) :
    allEmployees (zeroFillSummary p resp) = allEmployees resp := by
  unfold zeroFillSummary allEmployees
  cases p.clients with
  | mapping entries =>
    induction resp with
    | nil => rfl
    | cons kb rest ih =>
      simp only [List.map_cons, List.flatMap_cons, ih]
      obtain ⟨k1, b⟩ := kb
      cases b with
      | message s => rfl
      | data cs mt =>
        simp only [blockEmployees, zfClients_employees]
  | absent => rfl
  | all => rfl

/-- C4 (amended): with an explicit client→departments mapping, every
listed client — and within it every listed department — appears in every
*populated* period of the output (periods with no data at all remain bare
"no data" message placeholders and receive no client entries), and
the reconciliation never fabricates employee-level entries: the employee
leaves of the zero-filled response are exactly those of the populated
response. -/
theorem summary_filter_fill :
    (∀ (today : Month) (db : DB) (p : SummaryPayload)
      (entries : List (String × List String)) (resp : SummaryResp),
      p.clients = .mapping entries →
      client_summary_service today db p = .ok resp →
      ∀ kb ∈ resp, ∀ cs mt, kb.2 = .data cs mt →
        ∀ ent ∈ entries, ∃ cb, findA ent.1 cs = some cb ∧
          ∀ d ∈ ent.2, (findA d cb.departments).isSome) ∧
    (∀ (p : SummaryPayload) (resp : SummaryResp),
      allEmployees (zeroFillSummary p resp) = allEmployees resp) := by
  constructor
  · intro today db p entries resp hcl h kb hkb cs mt hdata ent hent
    unfold client_summary_service at h
    cases hres : resolveSummaryPeriods today db p with
    | error e => rw [hres] at h; exact absurd h (by simp [Except.map])
    | ok rp =>
      rw [hres] at h
      simp only [Except.map] at h
      have hpipe : summaryPipeline db p rp = resp := by injection h
      subst hpipe
      unfold summaryPipeline zeroFillSummary at hkb
      rw [hcl] at hkb
      rcases List.mem_map.mp hkb with ⟨kb0, hkb0, hmap⟩
      cases hb : kb0.2 with
      | message s =>
        rw [hb] at hmap
        rw [← hmap] at hdata
        exact absurd hdata (by simp)
      | data cs0 mt0 =>
        rw [hb] at hmap
        rw [← hmap] at hdata
        simp only [PeriodBlock.data.injEq] at hdata
        rw [← hdata.1]
        exact zfClients_spec kb0.1 entries cs0 ent hent
  · exact allEmployees_zeroFill

/-- Range 2024-01..2024-02 with the explicit filter Acme → [IT]; `dbOne`
has data only in 2024-01. -/
def pC4 : SummaryPayload :=
  ⟨none, [], [], some ⟨2024, 1⟩, some ⟨2024, 2⟩, .mapping [("Acme", ["IT"])]⟩

def respC4 : SummaryResp :=
  (client_summary_service todayX dbOne pC4).toOption.getD []

attribute [local semireducible] Rat.mul Rat.add Rat.sub Rat.inv in
/-- C4 (counterexample): the listed client Acme (and its listed
department IT) does appear in the populated period 2024-01, but the
data-less period 2024-02 stays a bare `{"message": ...}` placeholder with
no client entries at all — the gap reconciler skips periods that have no
`"clients"` block, so the listed client does *not* appear in every
requested period. -/
theorem summary_filter_fill_cx :
    client_summary_service todayX dbOne pC4 = .ok respC4 ∧
    findA "Acme" (blockClientsAt respC4 (PKey.month ⟨2024, 1⟩)) ≠ none ∧
    findA (PKey.month ⟨2024, 2⟩) respC4
      = some (.message "No data found for 2024-02") ∧
    blockClientsAt respC4 (PKey.month ⟨2024, 2⟩) = [] := by
  decide

def kbC4 : PKey × PeriodBlock :=
  respC4.getD 0 (PKey.month ⟨0, 0⟩, .message "")

def blockTotalAt (resp : SummaryResp) (k : PKey) : MonthTotal :=
  match findA k resp with
  | some (.data _ mt) => mt
  | _ => emptyMonthTotal

attribute [local semireducible] Rat.mul Rat.add Rat.sub Rat.inv in
theorem summary_filter_fill_witness :
    (pC4.clients = ClientsFilter.mapping [("Acme", ["IT"])] ∧
     client_summary_service todayX dbOne pC4 = .ok respC4 ∧
     kbC4 ∈ respC4 ∧
     kbC4.2 = .data (blockClientsAt respC4 (PKey.month ⟨2024, 1⟩))
       (blockTotalAt respC4 (PKey.month ⟨2024, 1⟩)) ∧
     ("Acme", ["IT"]) ∈ [("Acme", ["IT"])]) ∧
    (∃ cb, findA "Acme" (blockClientsAt respC4 (PKey.month ⟨2024, 1⟩)) = some cb ∧
      ∀ d ∈ ["IT"], (findA d cb.departments).isSome) :=
  ⟨⟨rfl, by decide, by decide, by decide, by decide⟩,
   summary_filter_fill.1 todayX dbOne pC4 [("Acme", ["IT"])] respC4 rfl (by decide)
     kbC4 (by decide)
     (blockClientsAt respC4 (PKey.month ⟨2024, 1⟩))
     (blockTotalAt respC4 (PKey.month ⟨2024, 1⟩))
     (by decide) ("Acme", ["IT"]) (by decide)⟩

/-! ### Latest-month fallback (claim C6) -/

/-- C6 (amended): with no period criteria at all and a falsy/`"ALL"`
clients payload, the service resolves a single period: the latest
duration month in the store, or — when the store is empty — the *current
calendar month* as an empty placeholder, raising no error.  The 404
`"No data available for the current year"` is raised only on the explicit
client-mapping path with no criteria and no data in the current calendar
year; with current-year data that path resolves the latest current-year
month. -/
theorem summary_latest_fallback :
    (∀ (today : Month) (sy : Option Int) (cl : ClientsFilter)
      (sms : List SMRow) (rates : List RateRow),
      clientsFalsyOrAll cl = true →
      client_summary_service today ⟨[], sms, rates⟩ ⟨sy, [], [], none, none, cl⟩
        = .ok [(PKey.month ⟨today.year, today.month⟩,
            .message (noDataMsg (PKey.month ⟨today.year, today.month⟩)))]) ∧
    (∀ (today : Month) (sy : Option Int) (cl : ClientsFilter) (db : DB) (M : Month),
      clientsFalsyOrAll cl = true → dbMaxDuration db = some M →
      ∃ resp, client_summary_service today db ⟨sy, [], [], none, none, cl⟩
          = .ok resp ∧ resp.map Prod.fst = [PKey.month M]) ∧
    (∀ (today : Month) (entries : List (String × List String)) (db : DB),
      entries ≠ [] → dbMaxDurationInYear db today.year = none →
      client_summary_service today db ⟨none, [], [], none, none, .mapping entries⟩
        = .error ⟨404, "No data available for the current year"⟩) ∧
    (∀ (today : Month) (entries : List (String × List String)) (db : DB) (M : Month),
      entries ≠ [] → dbMaxDurationInYear db today.year = some M →
      ∃ resp, client_summary_service today db
          ⟨none, [], [], none, none, .mapping entries⟩ = .ok resp ∧
        resp.map Prod.fst = [PKey.month M]) := by
  refine ⟨?_, ?_, ?_, ?_⟩
  · intro today sy cl sms rates hcl
    unfold client_summary_service resolveSummaryPeriods
    rw [hcl]
    simp only [noPeriodFilters, List.isEmpty_nil, Option.isNone_none,
      Bool.and_self, if_pos, if_true]
    have hmax : dbMaxDuration ⟨[], sms, rates⟩ = none := rfl
    rw [hmax]
    unfold resolveTail
    simp only [List.isEmpty_nil, Bool.not_true, Bool.false_or, Bool.or_self,
      Bool.false_and, Bool.false_eq_true, if_false, Option.isNone_some,
      Bool.and_false]
    unfold summaryPipeline summarySkeleton summaryRows summaryJoin
      populateSummary zeroFillSummary
    cases cl with
    | absent => rfl
    | all => rfl
    | mapping l =>
      cases l with
      | nil => rfl
      | cons e es => simp [clientsFalsyOrAll] at hcl
  · intro today sy cl db M hcl hmax
    unfold client_summary_service resolveSummaryPeriods
    rw [hcl]
    simp only [noPeriodFilters, List.isEmpty_nil, Option.isNone_none,
      Bool.and_self, if_pos, if_true]
    rw [hmax]
    unfold resolveTail
    simp only [List.isEmpty_nil, Bool.not_true, Bool.false_or, Bool.or_self,
      Bool.false_and, Bool.false_eq_true, if_false, Option.isNone_some,
      Bool.and_false, Option.getD_some]
    refine ⟨summaryPipeline db ⟨sy, [], [], none, none, cl⟩ ⟨[M], [], []⟩, rfl, ?_⟩
    unfold summaryPipeline
    rw [keys_zeroFill, keys_populate]
    rfl
  · intro today entries db hne hmax
    unfold client_summary_service resolveSummaryPeriods
    have hcl : clientsFalsyOrAll (ClientsFilter.mapping entries) = false := by
      cases entries with
      | nil => exact absurd rfl hne
      | cons e es => rfl
    rw [hcl]
    simp only [Bool.false_eq_true, if_false]
    rw [hmax]
    simp only [noPeriodFilters, List.isEmpty_nil, Option.isNone_none,
      Bool.and_self, if_pos, if_true]
    rfl
  · intro today entries db M hne hmax
    unfold client_summary_service resolveSummaryPeriods
    have hcl : clientsFalsyOrAll (ClientsFilter.mapping entries) = false := by
      cases entries with
      | nil => exact absurd rfl hne
      | cons e es => rfl
    rw [hcl]
    simp only [Bool.false_eq_true, if_false]
    rw [hmax]
    simp only [noPeriodFilters, List.isEmpty_nil, Option.isNone_none,
      Bool.and_self, if_pos, if_true]
    unfold resolveTail
    simp only [List.isEmpty_nil, Bool.not_true, Bool.false_or, Bool.or_self,
      Bool.false_and, Bool.false_eq_true, if_false, Option.isNone_some,
      Bool.and_false]
    refine ⟨_, rfl, ?_⟩
    unfold summaryPipeline
    rw [keys_zeroFill, keys_populate]
    rfl

def pNoCriteria : SummaryPayload := ⟨none, [], [], none, none, .absent⟩

/-- C6 (counterexample): with no period criteria and an empty store, the
service does *not* fail with a "not found" error — it falls back to the
current calendar month (here 2024-05) and returns it as a "no data"
placeholder. -/
theorem summary_latest_fallback_cx :
    client_summary_service todayX dbEmpty pNoCriteria
      = .ok [(PKey.month ⟨2024, 5⟩, .message "No data found for 2024-05")] := by
  decide

theorem summary_latest_fallback_witness :
    (([("Acme", ["IT"])] : List (String × List String)) ≠ [] ∧
     dbMaxDurationInYear dbEmpty todayX.year = none ∧
     client_summary_service todayX dbEmpty
        ⟨none, [], [], none, none, .mapping [("Acme", ["IT"])]⟩
       = .error ⟨404, "No data available for the current year"⟩) ∧
    (clientsFalsyOrAll .absent = true ∧ dbMaxDuration dbOne = some ⟨2024, 1⟩ ∧
     ∃ resp, client_summary_service todayX dbOne
         ⟨none, [], [], none, none, .absent⟩ = .ok resp ∧
       resp.map Prod.fst = [PKey.month ⟨2024, 1⟩]) :=
  ⟨⟨by decide, by decide,
    summary_latest_fallback.2.2.1 todayX [("Acme", ["IT"])] dbEmpty
      (by decide) (by decide)⟩,
   ⟨rfl, by decide,
    summary_latest_fallback.2.1 todayX none .absent dbOne ⟨2024, 1⟩ rfl (by decide)⟩⟩

/-! ### Future-month rejection (claim C9) -/

/-- `validate_not_future_month` (`search_service.py` lines 23-57, and the
same-named helper in `upload_service.py` lines 354-360): the `YYYY-MM`
format check happens on the string upstream; the month comparison is
against the first of the current month. -/
def validate_not_future_month (today m : Month) (field_name : String) :
    Except ApiError Unit :=
  if today < m then .error ⟨400, field_name ++ " cannot be a future month"⟩
  else .ok ()

/-- C9 (amended): future months are rejected in
`client_comparison_service` (both ends of the resolved range are checked
against the current month before any aggregation) and by
`validate_not_future_month` in the search service; `client_summary_service`
however validates only the *year* (`validate_year`, used by the
selected-months/quarters paths) and its explicit start/end range path
accepts future months, returning their "no data" placeholders. -/
theorem future_month_checks :
    (∀ (today : Month) (db : DB) (cn : String) (s e : Option Month)
      (am : Option String) (startM endM : Month),
      resolveCmpRange db cn s e = .ok (startM, endM) →
      today < startM →
      client_comparison_service today db cn s e am
        = .error ⟨400, "start_month cannot be greater than current month ("
            ++ monthStr today ++ ")."⟩) ∧
    (∀ (today : Month) (db : DB) (cn : String) (s e : Option Month)
      (am : Option String) (startM endM : Month),
      resolveCmpRange db cn s e = .ok (startM, endM) →
      ¬ today < startM → today < endM →
      client_comparison_service today db cn s e am
        = .error ⟨400, "end_month cannot be greater than current month ("
            ++ monthStr today ++ ")."⟩) ∧
    (∀ (today m : Month) (f : String),
      today < m ↔ validate_not_future_month today m f
        = .error ⟨400, f ++ " cannot be a future month"⟩) ∧
    (∀ (today : Month) (y : Int),
      validate_year today y = .ok () ↔ 0 < y ∧ y ≤ (today.year : Int)) := by
  refine ⟨?_, ?_, ?_, ?_⟩
  · intro today db cn s e am startM endM hres hfut
    unfold client_comparison_service
    rw [hres]
    simp only [Except.bind, bind]
    unfold cmpFutureCheck
    rw [if_pos hfut]
  · intro today db cn s e am startM endM hres hnfut hfut
    unfold client_comparison_service
    rw [hres]
    simp only [Except.bind, bind]
    unfold cmpFutureCheck
    rw [if_neg hnfut, if_pos hfut]
  · intro today m f
    unfold validate_not_future_month
    constructor
    · intro h
      rw [if_pos h]
    · intro h
      by_cases hc : today < m
      · exact hc
      · rw [if_neg hc] at h
        exact absurd h (by simp)
  · intro today y
    unfold validate_year
    constructor
    · intro h
      by_cases h1 : y ≤ 0
      · rw [if_pos h1] at h; exact absurd h (by simp)
      · rw [if_neg h1] at h
        by_cases h2 : y > (today.year : Int)
        · rw [if_pos h2] at h; exact absurd h (by simp)
        · exact ⟨by omega, by omega⟩
    · intro h
      rw [if_neg (by omega), if_neg (by omega)]

/-- Explicit range selecting the future month 2024-12 (today is
2024-05). -/
def pFuture : SummaryPayload :=
  ⟨none, [], [], some ⟨2024, 12⟩, some ⟨2024, 12⟩, .absent⟩

/-- C9 (counterexample): `client_summary_service` never checks the range
months against the current month — a range consisting of the strictly
future month 2024-12 (today being 2024-05) is accepted and produces an
ordinary placeholder response instead of a `FutureMonthNotAllowed`
rejection. -/
theorem summary_future_month_cx :
    todayX < (⟨2024, 12⟩ : Month) ∧
    client_summary_service todayX dbEmpty pFuture
      = .ok [(PKey.month ⟨2024, 12⟩, .message "No data found for 2024-12")] := by
  decide

theorem future_month_checks_witness :
    (resolveCmpRange dbEmpty "Acme" (some ⟨2025, 1⟩) (some ⟨2025, 2⟩)
        = .ok (⟨2025, 1⟩, ⟨2025, 2⟩) ∧
     todayX < (⟨2025, 1⟩ : Month) ∧
     client_comparison_service todayX dbEmpty "Acme"
        (some ⟨2025, 1⟩) (some ⟨2025, 2⟩) none
       = .error ⟨400,
          "start_month cannot be greater than current month (2024-05)."⟩) ∧
    (todayX < (⟨2024, 6⟩ : Month) ∧
     validate_not_future_month todayX ⟨2024, 6⟩ "start_month"
       = .error ⟨400, "start_month cannot be a future month"⟩) :=
  ⟨⟨by decide, by decide,
    future_month_checks.1 todayX dbEmpty "Acme" (some ⟨2025, 1⟩)
      (some ⟨2025, 2⟩) none ⟨2025, 1⟩ ⟨2025, 2⟩ (by decide) (by decide)⟩,
   ⟨by decide,
    (future_month_checks.2.2.1 todayX ⟨2024, 6⟩ "start_month").mp (by decide)⟩⟩

/-! ### Upload re-ingestion (claim C7, `upload_service.py`)

A stored shift-allowance record with its `shift_mapping` children,
restricted to the columns that participate in the replacement/upsert keys
and in the rebuilt breakdown (the remaining Excel columns are copied
verbatim and play no role in the claims). -/

structure StoredRec where
  emp_id : String
  client : Option String
  duration_month : Month
  payroll_month : Month
  mappings : List (ShiftType × ℚ × ℚ)
deriving DecidableEq

/-- The filter of `delete_existing_emp_month` (lines 88-106): note it
matches on `client` *in addition to* the (emp, duration, payroll)
triple. -/
def quadMatch (r : StoredRec) (emp_id : String) (client : Option String)
    (dm pm : Month) : Bool :=
  decide (r.emp_id = emp_id) && decide (r.client = client) &&
  decide (r.duration_month = dm) && decide (r.payroll_month = pm)

/-- Lines 88-106: query all records matching the quadruple, delete each
with its shift mappings. -/
def delete_existing_emp_month (store : List StoredRec) (emp_id : String)
    (client : Option String) (dm pm : Month) : List StoredRec :=
  store.filter fun r => !(quadMatch r emp_id client dm pm)

/-- One cleaned Excel row (validated, months parsed from `Mon'YY`). -/
structure UploadRow where
  emp_id : String
  client : Option String
  duration_month : Month
  payroll_month : Month
  shift_a_days : ℚ
  shift_b_days : ℚ
  shift_c_days : ℚ
  prime_days : ℚ
deriving DecidableEq

/-- `load_shift_rates` (lines 80-85 / 412-418): a dict keyed by upper-cased
shift type only — the rate's `payroll_year` is ignored, later rows
overwrite earlier ones. -/
def load_shift_rates (rates : List RateRow) : List (ShiftType × ℚ) :=
  rates.foldl (fun acc r => setA r.shift_type r.amount acc) []

/-- Lines 279-295: one `ShiftMapping` per shift column with positive days,
`total_allowance = days * rate` with a missing rate as 0. -/
def buildMappings (rates : List (ShiftType × ℚ)) (row : UploadRow) :
    List (ShiftType × ℚ × ℚ) :=
  (([(ShiftType.A, row.shift_a_days), (ShiftType.B, row.shift_b_days),
     (ShiftType.C, row.shift_c_days), (ShiftType.PRIME, row.prime_days)]
      : List (ShiftType × ℚ)).filter fun p => decide (0 < p.2)).map
    fun p => (p.1, p.2, p.2 * ((findA p.1 rates).getD 0))

def newRecOf (rates : List (ShiftType × ℚ)) (row : UploadRow) : StoredRec :=
  ⟨row.emp_id, row.client, row.duration_month, row.payroll_month,
   buildMappings rates row⟩

/-- Lines 265-297: per clean row, delete the existing records for the
quadruple, then insert the fresh record with its rebuilt mappings. -/
def processRow (rates : List (ShiftType × ℚ)) (store : List StoredRec)
    (row : UploadRow) : List StoredRec :=
  delete_existing_emp_month store row.emp_id row.client
    row.duration_month row.payroll_month ++ [newRecOf rates row]

def process_excel_upload_rows (rates : List (ShiftType × ℚ))
    (store : List StoredRec) (rows : List UploadRow) : List StoredRec :=
  rows.foldl (processRow rates) store

/-- C7 (amended): re-ingestion replaces per *quadruple*
`(employee_id, client, duration_month, payroll_month)` — every stored
record matching the row's quadruple is deleted together with its shift
mappings and exactly one fresh record, whose breakdown is rebuilt from the
new row alone, is inserted (delete-then-insert, never merged); stored
records that do not match the quadruple — including records with the same
`(employee_id, duration_month, payroll_month)` triple but a different
client — are retained unchanged. -/
theorem upload_replacement :
    (∀ (rates : List (ShiftType × ℚ)) (store : List StoredRec) (row : UploadRow)
      (r : StoredRec), r ∈ processRow rates store row →
      quadMatch r row.emp_id row.client row.duration_month row.payroll_month = true →
      r = newRecOf rates row) ∧
    (∀ (rates : List (ShiftType × ℚ)) (store : List StoredRec) (row : UploadRow)
      (r : StoredRec), r ∈ store →
      quadMatch r row.emp_id row.client row.duration_month row.payroll_month = false →
      r ∈ processRow rates store row) ∧
    (∀ (rates : List (ShiftType × ℚ)) (store : List StoredRec) (row : UploadRow),
      newRecOf rates row ∈ processRow rates store row ∧
      (newRecOf rates row).mappings = buildMappings rates row) ∧
    (∀ (rates : List (ShiftType × ℚ)) (store : List StoredRec) (row : UploadRow)
      (r : StoredRec), r ∈ processRow rates store row →
      r = newRecOf rates row ∨ (r ∈ store ∧
        quadMatch r row.emp_id row.client row.duration_month row.payroll_month = false)) := by
  refine ⟨?_, ?_, ?_, ?_⟩
  · intro rates store row r hr hq
    unfold processRow delete_existing_emp_month at hr
    rcases List.mem_append.mp hr with h1 | h1
    · have := (List.mem_filter.mp h1).2
      rw [hq] at this
      simp at this
    · exact List.mem_singleton.mp h1
  · intro rates store row r hr hq
    unfold processRow delete_existing_emp_month
    refine List.mem_append.mpr (Or.inl ?_)
    exact List.mem_filter.mpr ⟨hr, by rw [hq]; rfl⟩
  · intro rates store row
    exact ⟨List.mem_append.mpr (Or.inr (List.mem_singleton.mpr rfl)), rfl⟩
  · intro rates store row r hr
    unfold processRow delete_existing_emp_month at hr
    rcases List.mem_append.mp hr with h1 | h1
    · rcases List.mem_filter.mp h1 with ⟨hmem, hflt⟩
      refine Or.inr ⟨hmem, ?_⟩
      cases hq : quadMatch r row.emp_id row.client row.duration_month row.payroll_month with
      | false => rfl
      | true => rw [hq] at hflt; simp at hflt
    · exact Or.inl (List.mem_singleton.mp h1)

def storeC7 : List StoredRec :=
  [⟨"E1", some "Acme", ⟨2024, 1⟩, ⟨2024, 2⟩, [(.A, 2, 1000)]⟩]

def rowC7 : UploadRow := ⟨"E1", some "Beta", ⟨2024, 1⟩, ⟨2024, 2⟩, 1, 0, 0, 0⟩

attribute [local semireducible] Rat.mul Rat.add Rat.sub Rat.inv in
/-- C7 (counterexample): the stored record for `(E1, Acme, 2024-01,
2024-02)` shares the `(employee_id, duration_month, payroll_month)`
triple with the ingested row `(E1, Beta, 2024-01, 2024-02)`, yet it
survives ingestion untouched — the delete filter also matches on
`client`, so the prior breakdown for the triple is *not* replaced,
contradicting "regardless of the row's other fields". -/
theorem upload_replacement_cx :
    processRow [(ShiftType.A, 500)] storeC7 rowC7
      = [⟨"E1", some "Acme", ⟨2024, 1⟩, ⟨2024, 2⟩, [(.A, 2, 1000)]⟩,
         ⟨"E1", some "Beta", ⟨2024, 1⟩, ⟨2024, 2⟩, [(.A, 1, 500)]⟩] ∧
    (⟨"E1", some "Acme", ⟨2024, 1⟩, ⟨2024, 2⟩, [(.A, 2, 1000)]⟩ : StoredRec)
      ∈ processRow [(ShiftType.A, 500)] storeC7 rowC7 ∧
    (storeC7.getD 0 ⟨"", none, ⟨0, 0⟩, ⟨0, 0⟩, []⟩).emp_id = rowC7.emp_id ∧
    (storeC7.getD 0 ⟨"", none, ⟨0, 0⟩, ⟨0, 0⟩, []⟩).duration_month = rowC7.duration_month ∧
    (storeC7.getD 0 ⟨"", none, ⟨0, 0⟩, ⟨0, 0⟩, []⟩).payroll_month = rowC7.payroll_month := by
  decide

attribute [local semireducible] Rat.mul Rat.add Rat.sub Rat.inv in
theorem upload_replacement_witness :
    ((⟨"E1", some "Acme", ⟨2024, 1⟩, ⟨2024, 2⟩, [(.A, 2, 1000)]⟩ : StoredRec)
        ∈ storeC7 ∧
     quadMatch ⟨"E1", some "Acme", ⟨2024, 1⟩, ⟨2024, 2⟩, [(.A, 2, 1000)]⟩
        rowC7.emp_id rowC7.client rowC7.duration_month rowC7.payroll_month = false) ∧
    (⟨"E1", some "Acme", ⟨2024, 1⟩, ⟨2024, 2⟩, [(.A, 2, 1000)]⟩ : StoredRec)
      ∈ processRow [(ShiftType.A, 500)] storeC7 rowC7 :=
  ⟨⟨by decide, by decide⟩,
   upload_replacement.2.1 [(ShiftType.A, 500)] storeC7 rowC7
     ⟨"E1", some "Acme", ⟨2024, 1⟩, ⟨2024, 2⟩, [(.A, 2, 1000)]⟩
     (by decide) (by decide)⟩

/-! ### Missing rates in reporting flows (claim C8) -/

theorem findA_setA_self {κ β : Type} [DecidableEq κ] (k : κ) (v : β) :
    ∀ l : List (κ × β), findA k (setA k v l) = some v
  | [] => by simp [setA, findA]
  | (k', v') :: rest => by
    by_cases h : k' = k
    · simp [setA, findA, h]
    · simp [setA, findA, h, findA_setA_self k v rest]

theorem findA_setA_ne {κ β : Type} [DecidableEq κ] (k k' : κ) (v : β)
    (hne : k ≠ k') :
    ∀ l : List (κ × β), findA k' (setA k v l) = findA k' l
  | [] => by simp [setA, findA, hne]
  | (k'', v') :: rest => by
    by_cases h : k'' = k
    · have h2 : ¬ k'' = k' := fun e => hne (h.symm.trans e)
      have h3 : ¬ k' = k := fun e => hne e.symm
      simp [setA, findA, h, h2, h3, hne]
    · by_cases h' : k'' = k'
      · have h3 : ¬ k' = k := fun e => hne e.symm
        simp [setA, findA, h, h', h3]
      · simp [setA, findA, h, h', findA_setA_ne k k' v hne rest]

/-- `rate_map[yr]` of `get_graph_service` (`dashboard_service.py` lines
170-179): the `shifts_amount` rows whose `payroll_year` equals the
requested duration year, keyed by (canonical) shift type. -/
def graphRates (rates : List RateRow) (y : Nat) : List (ShiftType × ℚ) :=
  (rates.filter fun r => decide (r.payroll_year = y)).foldl
    (fun acc r => setA r.shift_type r.amount acc) []

/-- Lines 183-208: one month's graph value — the sum over the client's
records of that duration month of `days * rates.get(shift_type, 0)` (the
rate year is the *duration* month's year). -/
def get_graph_month_total (sas : List SARow) (sms : List SMRow)
    (rates : List RateRow) (client_name : String) (m : Month) : ℚ :=
  ((sas.filter fun sa =>
      decide (sa.client = some client_name) && decide (sa.duration_month = m)).map
    fun sa =>
      ((sms.filter fun sm => decide (sm.shiftallowance_id = sa.id)).map
        fun sm => sm.days * ((findA sm.shift_type (graphRates rates m.year)).getD 0)).sum).sum

theorem graphRates_append_zero (rates : List RateRow) (st : ShiftType) (y : Nat) :
    graphRates (rates ++ [⟨st, 0, y⟩]) y
      = setA st 0 (graphRates rates y) := by
  unfold graphRates
  rw [List.filter_append, List.foldl_append]
  simp [List.filter]

/-- C8 (amended): no reporting aggregation raises an error for a missing
rate — in `client_summary_service` the error behavior is entirely
independent of the rate table (and of the mappings), and the dashboard
graph treats a missing rate exactly as a zero rate, so there the result
equals the rate-present-as-0 result.  But the summary (and comparison)
services join rows to rates with an *inner* join: every joined tuple
carries an existing rate-table entry, so a row whose (shift type, payroll
year) has no rate is dropped entirely — its employee neither appears nor
is counted, which differs from the rate-0 result. -/
theorem missing_rate_behavior :
    (∀ (today : Month) (sas : List SARow) (sms sms' : List SMRow)
      (rates rates' : List RateRow) (p : SummaryPayload),
      resolveSummaryPeriods today ⟨sas, sms, rates⟩ p
        = resolveSummaryPeriods today ⟨sas, sms', rates'⟩ p) ∧
    (∀ (sas : List SARow) (sms : List SMRow) (rates : List RateRow)
      (cn : String) (m : Month) (st : ShiftType),
      findA st (graphRates rates m.year) = none →
      get_graph_month_total sas sms (rates ++ [⟨st, 0, m.year⟩]) cn m
        = get_graph_month_total sas sms rates cn m) ∧
    (∀ (db : DB) (jr : JoinedRow), jr ∈ summaryJoin db →
      ∃ rt ∈ db.rates, rt.shift_type = jr.shift_type ∧ rt.amount = jr.amount) := by
  refine ⟨?_, ?_, ?_⟩
  · intro today sas sms sms' rates rates' p
    rfl
  · intro sas sms rates cn m st hmiss
    unfold get_graph_month_total
    rw [graphRates_append_zero]
    apply congrArg
    apply List.map_congr_left
    intro sa _
    apply congrArg
    apply List.map_congr_left
    intro sm _
    by_cases hst : sm.shift_type = st
    · rw [hst, findA_setA_self, hmiss]
      simp
    · rw [findA_setA_ne st sm.shift_type 0 (fun e => hst e.symm)]
  · intro db jr hjr
    unfold summaryJoin at hjr
    rcases List.mem_flatMap.mp hjr with ⟨sa, hsa, hjr2⟩
    rcases List.mem_flatMap.mp hjr2 with ⟨sm, hsm, hjr3⟩
    rcases List.mem_map.mp hjr3 with ⟨rt, hrt, heq⟩
    rcases List.mem_filter.mp hrt with ⟨hrtmem, hrtflt⟩
    simp only [Bool.and_eq_true, decide_eq_true_eq] at hrtflt
    exact ⟨rt, hrtmem, by rw [← heq]; exact ⟨hrtflt.1, rfl⟩⟩

/-- One employee with one shift-A mapping and *no* rate table entry. -/
def dbNoRate : DB :=
  ⟨[⟨1, "E1", "Alice", some "IT", some "Acme", none, ⟨2024, 1⟩, ⟨2024, 2⟩⟩],
   [⟨1, .A, 2⟩], []⟩

/-- The same rows with the missing rate present as 0. -/
def dbZeroRate : DB :=
  ⟨[⟨1, "E1", "Alice", some "IT", some "Acme", none, ⟨2024, 1⟩, ⟨2024, 2⟩⟩],
   [⟨1, .A, 2⟩], [⟨.A, 0, 2024⟩]⟩

def respZeroRate : SummaryResp :=
  (client_summary_service todayX dbZeroRate pRangeJan).toOption.getD []

attribute [local semireducible] Rat.mul Rat.add Rat.sub Rat.inv in
/-- C8 (counterexample): with the rate absent the summary service's inner
join drops the row — the period stays a "no data" placeholder and nobody
is head-counted — while with the rate present as 0 the employee appears
and `total_head_count` is 1 with zero allowance.  The two results differ,
refuting "the result equals the result obtained with that rate present
as 0"; no error is raised in either case. -/
theorem summary_missing_rate_cx :
    client_summary_service todayX dbNoRate pRangeJan
      = .ok [(PKey.month ⟨2024, 1⟩, .message "No data found for 2024-01")] ∧
    (blockTotalAt respZeroRate (PKey.month ⟨2024, 1⟩)).total_head_count = 1 ∧
    (blockTotalAt respZeroRate (PKey.month ⟨2024, 1⟩)).total_allowance = 0 ∧
    client_summary_service todayX dbNoRate pRangeJan
      ≠ client_summary_service todayX dbZeroRate pRangeJan := by
  decide

attribute [local semireducible] Rat.mul Rat.add Rat.sub Rat.inv in
theorem missing_rate_behavior_witness :
    (findA ShiftType.B (graphRates dbZeroRate.rates 2024) = none ∧
     get_graph_month_total dbZeroRate.sas dbZeroRate.sms
        (dbZeroRate.rates ++ [⟨ShiftType.B, 0, 2024⟩]) "Acme" ⟨2024, 1⟩
       = get_graph_month_total dbZeroRate.sas dbZeroRate.sms
          dbZeroRate.rates "Acme" ⟨2024, 1⟩) :=
  ⟨by decide,
   missing_rate_behavior.2.1 dbZeroRate.sas dbZeroRate.sms dbZeroRate.rates
     "Acme" ⟨2024, 1⟩ ShiftType.B (by decide)⟩

/-! ### Corrected-row validation (claim C10, `upload_service.py`)

`CorrectedRow` is restricted to the fields the validations and the upsert
key read; `duration_month`/`payroll_month` arrive as already-parsed
months (the `Mon'YY` string parse of `parse_yyyy_mm` is upstream of the
embedded logic), and the two dozen columns copied verbatim onto the
record play no role in the claim.  The pydantic fields are numeric, so
`float(value)` never raises. -/

structure CorrectedRow where
  emp_id : String
  client : Option String
  duration_month : Month
  payroll_month : Month
  shift_a_days : Option ℚ
  shift_b_days : Option ℚ
  shift_c_days : Option ℚ
  prime_days : Option ℚ
deriving DecidableEq

/-- `validate_half_day` (lines 363-374): non-negative and `(value*2) % 1
== 0`, i.e. twice the value is an integer. -/
def validate_half_day (v : ℚ) (field_name : String) : Except ApiError Unit :=
  if v < 0 then .error ⟨400, field_name ++ " must be non-negative"⟩
  else if (v * 2).den ≠ 1 then
    .error ⟨400, field_name ++ " must be in half day increments"⟩
  else .ok ()

/-- `validate_shift_days` (lines 377-405): each of the four shift-day
values (`None` read as 0) passes `validate_half_day`, and the total must
be strictly positive. -/
def validate_shift_days (row : CorrectedRow) : Except ApiError ℚ := do
  let _ ← validate_half_day (row.shift_a_days.getD 0) "shift_a_days"
  let _ ← validate_half_day (row.shift_b_days.getD 0) "shift_b_days"
  let _ ← validate_half_day (row.shift_c_days.getD 0) "shift_c_days"
  let _ ← validate_half_day (row.prime_days.getD 0) "prime_days"
  let total := row.shift_a_days.getD 0 + row.shift_b_days.getD 0
    + row.shift_c_days.getD 0 + row.prime_days.getD 0
  if total ≤ 0 then
    .error ⟨400, "At least one shift day must be greater than 0"⟩
  else .ok total

/-- `calendar.monthrange(...)[1]`. -/
def days_in_month (m : Month) : Nat :=
  if m.month = 2 then
    if m.year % 4 = 0 ∧ (m.year % 100 ≠ 0 ∨ m.year % 400 = 0) then 29 else 28
  else if m.month = 4 ∨ m.month = 6 ∨ m.month = 9 ∨ m.month = 11 then 30
  else 31

/-- Lines 492-507: rebuild the shift mappings from the corrected values
(`if days and float(days) > 0`), missing rate as 0. -/
def newMappingsOf (rates : List (ShiftType × ℚ)) (row : CorrectedRow) :
    List (ShiftType × ℚ × ℚ) :=
  (([(ShiftType.A, row.shift_a_days.getD 0), (ShiftType.B, row.shift_b_days.getD 0),
     (ShiftType.C, row.shift_c_days.getD 0), (ShiftType.PRIME, row.prime_days.getD 0)]
      : List (ShiftType × ℚ)).filter fun p => decide (0 < p.2)).map
    fun p => (p.1, p.2, p.2 * ((findA p.1 rates).getD 0))

/-- Lines 440-507: find the record by `(emp_id, client, duration_month,
payroll_month)`, update it (or insert a fresh one), and replace its shift
mappings with the rebuilt ones. -/
def upsertRec (rates : List (ShiftType × ℚ)) (row : CorrectedRow) :
    List StoredRec → List StoredRec
  | [] => [⟨row.emp_id, row.client, row.duration_month, row.payroll_month,
      newMappingsOf rates row⟩]
  | r :: rest =>
    if quadMatch r row.emp_id row.client row.duration_month row.payroll_month then
      { r with mappings := newMappingsOf rates row } :: rest
    else r :: upsertRec rates row rest

/-- One row of `update_corrected_rows` up to the per-row `db.commit()`:
the validations, then the upsert. -/
def updateRow (rates : List (ShiftType × ℚ)) (store : List StoredRec)
    (row : CorrectedRow) : Except ApiError (List StoredRec) := do
  let total ← validate_shift_days row
  if total > (days_in_month row.duration_month : ℚ) then
    .error ⟨400, "Total shift days exceed number of days in duration month"⟩
  else .ok (upsertRec rates row store)

/-- An entry of `failed_rows` (lines 511-520). -/
structure FailedRow where
  emp_id : String
  client : Option String
  duration_month : Month
  payroll_month : Month
  reason : String
deriving DecidableEq

def mkFailed (row : CorrectedRow) (e : ApiError) : FailedRow :=
  ⟨row.emp_id, row.client, row.duration_month, row.payroll_month, e.detail⟩

/-- One loop iteration: a failing row rolls the store back (it is left
unchanged) and is appended to `failed_rows`. -/
def stepCorrected (rates : List (ShiftType × ℚ))
    (acc : List StoredRec × List FailedRow) (row : CorrectedRow) :
    List StoredRec × List FailedRow :=
  match updateRow rates acc.1 row with
  | .ok st => (st, acc.2)
  | .error e => (acc.1, acc.2 ++ [mkFailed row e])

def update_corrected_rows_run (rates : List (ShiftType × ℚ))
    (store : List StoredRec) (rows : List CorrectedRow) :
    List StoredRec × List FailedRow :=
  rows.foldl (stepCorrected rates) (store, [])

/-- `update_corrected_rows` (lines 420-534): per-row validate/upsert with
rollback on failure, then a 400 "Validation failed" carrying the failed
rows whenever any row failed (the JSON rendering of the failed rows is
abstracted into the fixed detail string). -/
def update_corrected_rows (rates : List (ShiftType × ℚ))
    (store : List StoredRec) (rows : List CorrectedRow) :
    Except ApiError (List StoredRec) :=
  if rows = [] then .error ⟨400, "No corrected rows provided"⟩
  else if (update_corrected_rows_run rates store rows).2 ≠ [] then
    .error ⟨400, "Validation failed"⟩
  else .ok (update_corrected_rows_run rates store rows).1

/-- The three validated conditions of the claim. -/
def halfOk (v : ℚ) : Prop := 0 ≤ v ∧ (v * 2).den = 1

def sumDays (row : CorrectedRow) : ℚ :=
  row.shift_a_days.getD 0 + row.shift_b_days.getD 0
    + row.shift_c_days.getD 0 + row.prime_days.getD 0

def shiftDaysValid (row : CorrectedRow) : Prop :=
  halfOk (row.shift_a_days.getD 0) ∧ halfOk (row.shift_b_days.getD 0) ∧
  halfOk (row.shift_c_days.getD 0) ∧ halfOk (row.prime_days.getD 0) ∧
  0 < sumDays row ∧ sumDays row ≤ (days_in_month row.duration_month : ℚ)

instance (v : ℚ) : Decidable (halfOk v) := by unfold halfOk; infer_instance

instance (row : CorrectedRow) : Decidable (shiftDaysValid row) := by
  unfold shiftDaysValid; infer_instance

theorem vhd_ok_iff (v : ℚ) (f : String) :
    validate_half_day v f = .ok () ↔ halfOk v := by
  unfold validate_half_day halfOk
  constructor
  · intro h
    by_cases h1 : v < 0
    · rw [if_pos h1] at h; exact absurd h (by simp)
    · rw [if_neg h1] at h
      by_cases h2 : (v * 2).den ≠ 1
      · rw [if_pos h2] at h; exact absurd h (by simp)
      · exact ⟨le_of_not_lt h1, by omega⟩
  · rintro ⟨h1, h2⟩
    rw [if_neg (not_lt_of_le h1), if_neg (by omega)]

theorem vhd_error_of_not (v : ℚ) (f : String) (h : ¬ halfOk v) :
    ∃ e, validate_half_day v f = .error e := by
  unfold validate_half_day
  unfold halfOk at h
  by_cases h1 : v < 0
  · exact ⟨_, by rw [if_pos h1]⟩
  · have h2 : (v * 2).den ≠ 1 := by
      rcases not_and_or.mp h with h3 | h3
      · exact absurd (le_of_not_lt h1) h3
      · exact h3
    exact ⟨_, by rw [if_neg h1, if_pos h2]⟩

theorem validate_shift_days_ok_iff (row : CorrectedRow) :
    validate_shift_days row = .ok (sumDays row) ↔
      (halfOk (row.shift_a_days.getD 0) ∧ halfOk (row.shift_b_days.getD 0) ∧
       halfOk (row.shift_c_days.getD 0) ∧ halfOk (row.prime_days.getD 0) ∧
       0 < sumDays row) := by
  unfold validate_shift_days
  constructor
  · intro h
    by_cases ha : halfOk (row.shift_a_days.getD 0)
    · by_cases hb : halfOk (row.shift_b_days.getD 0)
      · by_cases hc : halfOk (row.shift_c_days.getD 0)
        · by_cases hp : halfOk (row.prime_days.getD 0)
          · rw [(vhd_ok_iff _ _).mpr ha, (vhd_ok_iff _ _).mpr hb,
              (vhd_ok_iff _ _).mpr hc, (vhd_ok_iff _ _).mpr hp] at h
            simp only [Except.bind, bind, pure] at h
            by_cases ht : sumDays row ≤ 0
            · rw [if_pos (by unfold sumDays at ht; exact ht)] at h
              exact absurd h (by simp)
            · exact ⟨ha, hb, hc, hp, lt_of_not_le ht⟩
          · rcases vhd_error_of_not _ "prime_days" hp with ⟨e, he⟩
            rw [(vhd_ok_iff _ _).mpr ha, (vhd_ok_iff _ _).mpr hb,
              (vhd_ok_iff _ _).mpr hc, he] at h
            exact absurd h (by simp [Except.bind, bind])
        · rcases vhd_error_of_not _ "shift_c_days" hc with ⟨e, he⟩
          rw [(vhd_ok_iff _ _).mpr ha, (vhd_ok_iff _ _).mpr hb, he] at h
          exact absurd h (by simp [Except.bind, bind])
      · rcases vhd_error_of_not _ "shift_b_days" hb with ⟨e, he⟩
        rw [(vhd_ok_iff _ _).mpr ha, he] at h
        exact absurd h (by simp [Except.bind, bind])
    · rcases vhd_error_of_not _ "shift_a_days" ha with ⟨e, he⟩
      rw [he] at h
      exact absurd h (by simp [Except.bind, bind])
  · rintro ⟨ha, hb, hc, hp, ht⟩
    rw [(vhd_ok_iff _ _).mpr ha, (vhd_ok_iff _ _).mpr hb,
      (vhd_ok_iff _ _).mpr hc, (vhd_ok_iff _ _).mpr hp]
    simp only [Except.bind, bind, pure]
    rw [if_neg (not_le_of_lt (by unfold sumDays at ht; exact ht))]
    rfl

theorem validate_shift_days_error_of_not (row : CorrectedRow)
    (h : ¬ (halfOk (row.shift_a_days.getD 0) ∧ halfOk (row.shift_b_days.getD 0) ∧
       halfOk (row.shift_c_days.getD 0) ∧ halfOk (row.prime_days.getD 0) ∧
       0 < sumDays row)) :
    ∃ e, validate_shift_days row = .error e := by
  unfold validate_shift_days
  by_cases ha : halfOk (row.shift_a_days.getD 0)
  · by_cases hb : halfOk (row.shift_b_days.getD 0)
    · by_cases hc : halfOk (row.shift_c_days.getD 0)
      · by_cases hp : halfOk (row.prime_days.getD 0)
        · have ht : ¬ 0 < sumDays row := fun ht => h ⟨ha, hb, hc, hp, ht⟩
          refine ⟨⟨400, "At least one shift day must be greater than 0"⟩, ?_⟩
          rw [(vhd_ok_iff _ _).mpr ha, (vhd_ok_iff _ _).mpr hb,
            (vhd_ok_iff _ _).mpr hc, (vhd_ok_iff _ _).mpr hp]
          simp only [Except.bind, bind, pure]
          rw [if_pos (by unfold sumDays at ht; exact le_of_not_lt ht)]
        · rcases vhd_error_of_not _ "prime_days" hp with ⟨e, he⟩
          refine ⟨e, ?_⟩
          rw [(vhd_ok_iff _ _).mpr ha, (vhd_ok_iff _ _).mpr hb,
            (vhd_ok_iff _ _).mpr hc, he]
          simp only [Except.bind, bind]
      · rcases vhd_error_of_not _ "shift_c_days" hc with ⟨e, he⟩
        refine ⟨e, ?_⟩
        rw [(vhd_ok_iff _ _).mpr ha, (vhd_ok_iff _ _).mpr hb, he]
        simp only [Except.bind, bind]
    · rcases vhd_error_of_not _ "shift_b_days" hb with ⟨e, he⟩
      refine ⟨e, ?_⟩
      rw [(vhd_ok_iff _ _).mpr ha, he]
      simp only [Except.bind, bind]
  · rcases vhd_error_of_not _ "shift_a_days" ha with ⟨e, he⟩
    exact ⟨e, by rw [he]; simp only [Except.bind, bind]⟩

theorem updateRow_ok_iff (rates : List (ShiftType × ℚ)) (store : List StoredRec)
    (row : CorrectedRow) :
    updateRow rates store row = .ok (upsertRec rates row store) ↔
      shiftDaysValid row := by
  unfold updateRow shiftDaysValid
  constructor
  · intro h
    by_cases hv : halfOk (row.shift_a_days.getD 0) ∧ halfOk (row.shift_b_days.getD 0) ∧
        halfOk (row.shift_c_days.getD 0) ∧ halfOk (row.prime_days.getD 0) ∧
        0 < sumDays row
    · rw [(validate_shift_days_ok_iff row).mpr hv] at h
      simp only [Except.bind, bind] at h
      by_cases hd : sumDays row > (days_in_month row.duration_month : ℚ)
      · rw [if_pos hd] at h
        exact absurd h (by simp)
      · exact ⟨hv.1, hv.2.1, hv.2.2.1, hv.2.2.2.1, hv.2.2.2.2, le_of_not_lt hd⟩
    · rcases validate_shift_days_error_of_not row hv with ⟨e, he⟩
      rw [he] at h
      exact absurd h (by simp [Except.bind, bind])
  · rintro ⟨ha, hb, hc, hp, ht, hd⟩
    rw [(validate_shift_days_ok_iff row).mpr ⟨ha, hb, hc, hp, ht⟩]
    simp only [Except.bind, bind]
    rw [if_neg (not_lt_of_le hd)]

theorem updateRow_error_of_not (rates : List (ShiftType × ℚ))
    (store : List StoredRec) (row : CorrectedRow) (h : ¬ shiftDaysValid row) :
    ∃ e, updateRow rates store row = .error e := by
  unfold updateRow
  by_cases hv : halfOk (row.shift_a_days.getD 0) ∧ halfOk (row.shift_b_days.getD 0) ∧
      halfOk (row.shift_c_days.getD 0) ∧ halfOk (row.prime_days.getD 0) ∧
      0 < sumDays row
  · have hd : sumDays row > (days_in_month row.duration_month : ℚ) := by
      by_contra hd
      exact h ⟨hv.1, hv.2.1, hv.2.2.1, hv.2.2.2.1, hv.2.2.2.2, le_of_not_lt hd⟩
    refine ⟨⟨400, "Total shift days exceed number of days in duration month"⟩, ?_⟩
    rw [(validate_shift_days_ok_iff row).mpr hv]
    simp only [Except.bind, bind]
    rw [if_pos hd]
  · rcases validate_shift_days_error_of_not row hv with ⟨e, he⟩
    exact ⟨e, by rw [he]; rfl⟩

theorem stepCorrected_invalid (rates : List (ShiftType × ℚ))
    (acc : List StoredRec × List FailedRow) (row : CorrectedRow)
    (h : ¬ shiftDaysValid row) :
    ∃ e, stepCorrected rates acc row = (acc.1, acc.2 ++ [mkFailed row e]) := by
  rcases updateRow_error_of_not rates acc.1 row h with ⟨e, he⟩
  exact ⟨e, by unfold stepCorrected; rw [he]⟩

theorem run_failed_mono (rates : List (ShiftType × ℚ)) :
    ∀ (rows : List CorrectedRow) (st : List StoredRec) (fl : List FailedRow)
      (f : FailedRow), f ∈ fl →
      f ∈ (rows.foldl (stepCorrected rates) (st, fl)).2
  | [], _, _, _, hf => hf
  | row :: rows, st, fl, f, hf => by
    rw [List.foldl_cons]
    unfold stepCorrected
    cases updateRow rates st row with
    | ok st' => exact run_failed_mono rates rows st' fl f hf
    | error e =>
      exact run_failed_mono rates rows st _ f
        (List.mem_append.mpr (Or.inl hf))

theorem run_reports_invalid (rates : List (ShiftType × ℚ)) :
    ∀ (rows : List CorrectedRow) (st : List StoredRec) (fl : List FailedRow)
      (row : CorrectedRow), row ∈ rows → ¬ shiftDaysValid row →
      ∃ e, mkFailed row e ∈ (rows.foldl (stepCorrected rates) (st, fl)).2
  | r0 :: rows, st, fl, row, hmem, hinv => by
    rcases List.mem_cons.mp hmem with h1 | h1
    · subst h1
      rw [List.foldl_cons]
      rcases stepCorrected_invalid rates (st, fl) row hinv with ⟨e, he⟩
      rw [he]
      exact ⟨e, run_failed_mono rates rows st _ _
        (List.mem_append.mpr (Or.inr (List.mem_singleton.mpr rfl)))⟩
    · rw [List.foldl_cons]
      exact run_reports_invalid rates rows _ _ row h1 hinv

/-- C10: `update_corrected_rows` persists a corrected row exactly when
all four shift-day values are non-negative half-day multiples, their sum
is strictly positive, and the sum does not exceed the calendar days of
the row's duration month; a violating row leaves the store untouched
(per-row rollback), is reported in `failed_rows`, and makes the whole
call fail with a 400 validation error. -/
theorem corrected_rows_validation :
    (∀ (rates : List (ShiftType × ℚ)) (store : List StoredRec) (row : CorrectedRow),
      updateRow rates store row = .ok (upsertRec rates row store) ↔
        shiftDaysValid row) ∧
    (∀ (rates : List (ShiftType × ℚ)) (acc : List StoredRec × List FailedRow)
      (row : CorrectedRow), ¬ shiftDaysValid row →
      ∃ e, stepCorrected rates acc row = (acc.1, acc.2 ++ [mkFailed row e])) ∧
    (∀ (rates : List (ShiftType × ℚ)) (store : List StoredRec)
      (rows : List CorrectedRow) (row : CorrectedRow),
      row ∈ rows → ¬ shiftDaysValid row →
      (∃ e, mkFailed row e ∈ (update_corrected_rows_run rates store rows).2) ∧
      update_corrected_rows rates store rows = .error ⟨400, "Validation failed"⟩) := by
  refine ⟨updateRow_ok_iff, stepCorrected_invalid, ?_⟩
  intro rates store rows row hmem hinv
  have hrep := run_reports_invalid rates rows store [] row hmem hinv
  refine ⟨hrep, ?_⟩
  unfold update_corrected_rows
  have hne : rows ≠ [] := by
    intro h
    rw [h] at hmem
    simp at hmem
  rw [if_neg hne]
  rcases hrep with ⟨e, he⟩
  have hfl : (update_corrected_rows_run rates store rows).2 ≠ [] :=
    List.ne_nil_of_mem he
  rw [if_pos hfl]

/-- A corrected row whose `shift_a_days` is not a half-day multiple. -/
def rowC10 : CorrectedRow :=
  ⟨"E1", some "Acme", ⟨2024, 2⟩, ⟨2024, 2⟩, some (1/3), none, none, none⟩

attribute [local semireducible] Rat.mul Rat.add Rat.sub Rat.inv in
theorem corrected_rows_validation_witness :
    (∃ e, mkFailed rowC10 e ∈ (update_corrected_rows_run [] [] [rowC10]).2) ∧
    update_corrected_rows [] [] [rowC10] = .error ⟨400, "Validation failed"⟩ :=
  corrected_rows_validation.2.2 [] [] [rowC10] rowC10 (by decide) (by decide)

end ShiftVerif
